import Mathlib

/-!
Verification of the achew audiobook chapter-extraction backend.

This file gives a shallow embedding, over exact rationals, of the parts of
the backend relevant to the chapter data model, the undoable chapter
operations, the pipeline history, the smart-detection clustering wrapper,
the VAD gap merger, the add-chapter HTTP route, and the chapter aligner,
and proves (or refutes) the specified properties about them.

Python floats are embedded as `ℚ`; the constants appearing in the claims
(0.25, 7.5, 120, ...) are exactly representable in binary floating point,
so the rational embedding agrees with the float code on every concrete
input evaluated here.
-/

namespace Achew

/-- Editable chapter record (`app/models/chapter.py`, `ChapterData`).
`selectedInternal` embeds the private `_selected` attribute; the
caller-visible `selected` property is `_selected and not deleted`. -/
structure ChapterData where
  id : ℕ
  timestamp : ℚ
  asr_title : String
  current_title : String
  audio_segment_path : String
  deleted : Bool := false
  selectedInternal : Bool := true
  deriving DecidableEq, Repr

/-- The `selected` computed property: `self._selected and not self.deleted`. -/
def ChapterData.selected (c : ChapterData) : Bool :=
  c.selectedInternal && !c.deleted

/-- The `selected` setter: writes the private `_selected` attribute. -/
def ChapterData.setSelected (c : ChapterData) (v : Bool) : ChapterData :=
  { c with selectedInternal := v }

/-- Tagged chapter operations (`app/models/chapter_operation.py`).
`restore` and `editTitle` carry the mutable `old_title` field that the
Python objects overwrite during `apply`. -/
inductive ChapterOperation where
  | add (chapter : ChapterData)
  | delete (chapter_id : ℕ)
  | restore (chapter_id : ℕ) (old_title : String) (new_title : Option String)
  | editTitle (chapter_id : ℕ) (old_title : String) (new_title : String)
  | aiCleanup (chapter_id : ℕ) (old_title : String) (new_title : String) (selected : Bool)
  | batch (operations : List ChapterOperation)

/-- `ChapterOperation.find_chapter`: first chapter with the given id
(raises—here `none`—when absent). -/
def find_chapter (chapters : List ChapterData) (cid : ℕ) : Option ChapterData :=
  chapters.find? (fun c => c.id == cid)

/-- Mutating the object returned by `find_chapter` updates the (unique
first) list slot holding it: rewrite the first chapter with the id. -/
def updateChapter (cid : ℕ) (f : ChapterData → ChapterData) :
    List ChapterData → Option (List ChapterData)
  | [] => none
  | c :: rest =>
    if c.id = cid then some (f c :: rest)
    else (updateChapter cid f rest).map (c :: ·)

/-- Python truthiness of the `Optional[str]` field `new_title`:
`None` and `""` are falsy. -/
def strTruthy : Option String → Bool
  | none => false
  | some s => s ≠ ""

/-- `AddChapterOperation.apply`'s insertion loop: insert before the first
existing chapter whose timestamp is strictly greater, else at the end. -/
def insertChapter (ch : ChapterData) : List ChapterData → List ChapterData
  | [] => [ch]
  | c :: rest =>
    if ch.timestamp < c.timestamp then ch :: c :: rest
    else c :: insertChapter ch rest

/-- `AddChapterOperation.undo`: `list.remove` of the object found by id
(the first chapter with the id, since earlier chapters have other ids). -/
def removeFirstById (cid : ℕ) : List ChapterData → List ChapterData
  | [] => []
  | c :: rest => if c.id = cid then rest else c :: removeFirstById cid rest

mutual

/-- `ChapterOperation.apply`: returns the mutated operation (it may stash
`old_title`) together with the updated chapter list, or `none` where the
Python raises `ValueError` (unknown chapter id). -/
def ChapterOperation.apply :
    ChapterOperation → List ChapterData → Option (ChapterOperation × List ChapterData)
  | .add ch, cs => some (.add ch, insertChapter ch cs)
  | .delete cid, cs =>
    (updateChapter cid (fun c => { c with deleted := true }) cs).map (.delete cid, ·)
  | .restore cid old newT, cs =>
    match find_chapter cs cid with
    | none => none
    | some c =>
      let old' := if strTruthy newT then c.current_title else old
      (updateChapter cid
          (fun x =>
            { x with
              selectedInternal := true
              deleted := false
              current_title := if strTruthy newT then newT.getD "" else x.current_title })
          cs).map
        (.restore cid old' newT, ·)
  | .editTitle cid _old newT, cs =>
    match find_chapter cs cid with
    | none => none
    | some c =>
      (updateChapter cid (fun x => { x with current_title := newT }) cs).map
        (.editTitle cid c.current_title newT, ·)
  | .aiCleanup cid old newT sel, cs =>
    (updateChapter cid (fun x => { x with current_title := newT, selectedInternal := sel }) cs).map
      (.aiCleanup cid old newT sel, ·)
  | .batch ops, cs =>
    (ChapterOperation.applyList ops cs).map (fun p => (.batch p.1, p.2))

/-- `BatchChapterOperation.apply`: apply members in order. -/
def ChapterOperation.applyList :
    List ChapterOperation → List ChapterData → Option (List ChapterOperation × List ChapterData)
  | [], cs => some ([], cs)
  | op :: ops, cs =>
    (ChapterOperation.apply op cs).bind fun p =>
      (ChapterOperation.applyList ops p.2).map fun q => (p.1 :: q.1, q.2)

end

mutual

/-- `ChapterOperation.undo` (run on the operation state left by `apply`). -/
def ChapterOperation.undo : ChapterOperation → List ChapterData → Option (List ChapterData)
  | .add ch, cs =>
    match find_chapter cs ch.id with
    | none => none
    | some _ => some (removeFirstById ch.id cs)
  | .delete cid, cs => updateChapter cid (fun c => { c with deleted := false }) cs
  | .restore cid old newT, cs =>
    updateChapter cid
      (fun c =>
        { c with
          current_title := if strTruthy newT then old else c.current_title
          deleted := true }) cs
  | .editTitle cid old _, cs =>
    updateChapter cid (fun c => { c with current_title := old }) cs
  | .aiCleanup cid old _ _, cs =>
    updateChapter cid (fun c => { c with current_title := old, selectedInternal := true }) cs
  | .batch ops, cs => ChapterOperation.undoListRev ops cs

/-- `BatchChapterOperation.undo`: undo members in reverse order (the tail
of the list is undone before its head). -/
def ChapterOperation.undoListRev : List ChapterOperation → List ChapterData → Option (List ChapterData)
  | [], cs => some cs
  | op :: ops, cs =>
    (ChapterOperation.undoListRev ops cs).bind (ChapterOperation.undo op)

end

/-- `apply` then `undo`, as in the spec's round-trip law. -/
def roundtrip (op : ChapterOperation) (cs : List ChapterData) : Option (List ChapterData) :=
  (op.apply cs).bind fun p => p.1.undo p.2

/-- Selection statistics (`ProcessingPipeline.get_selection_stats`). -/
structure SelectionStats where
  total : ℕ
  selected : ℕ
  unselected : ℕ
  deriving DecidableEq, Repr

/-- `get_selection_stats`: `total = len(chapters)`,
`selected = #{c | c.selected}`, `unselected = total - selected`. -/
def get_selection_stats (cs : List ChapterData) : SelectionStats :=
  { total := cs.length
    selected := (cs.filter (fun c => c.selected)).length
    unselected := cs.length - (cs.filter (fun c => c.selected)).length }

/-! ### Pipeline history (`ProcessingPipeline.undo` / `redo`) -/

/-- Modelled from the spec: `app/models/enums.py` is not under `src/`;
the `ActionType` variants are those used by the pipeline and the history
contract of §4.7 (add, delete, restore, edit-title, AI clean-up, batch). -/
inductive ActionType where
  | add
  | delete
  | restore
  | edit_title
  | ai_cleanup
  | batchAction
  deriving DecidableEq, Repr

/-- Modelled from the spec: the `.value` string of each `ActionType`
enum member. -/
def ActionType.value : ActionType → String
  | .add => "add"
  | .delete => "delete"
  | .restore => "restore"
  | .edit_title => "edit_title"
  | .ai_cleanup => "ai_cleanup"
  | .batchAction => "batch"

/-- The dynamically-typed `old_value` / `new_value` payloads
(`Any` in `ChapterHistory`): the shapes actually stored by
`add_to_history`. -/
inductive HistVal where
  | str (s : String)
  | chapterDict (id : ℕ)
  | dictNoId
  | aiDict (title_changes selection_changes : List (ℕ × String × String))
  | nil
  deriving DecidableEq, Repr

/-- Whether a history payload is the dictionary shape stored for AI
clean-up entries. -/
def isAiDict : HistVal → Bool
  | .aiDict _ _ => true
  | _ => false

/-- `app/models/chapter.py`, `ChapterHistory`. -/
structure ChapterHistory where
  action_type : ActionType
  chapter_id : Option ℕ
  old_value : HistVal
  new_value : HistVal
  deriving DecidableEq, Repr

/-- `app/models/chapter.py`, `ChapterBatchHistory` (id and wall-clock
timestamp omitted: no claim reads them). -/
structure ChapterBatchHistory where
  operations : List ChapterHistory
  description : String
  deriving DecidableEq, Repr

/-- The pipeline fields touched by the undo/redo methods. -/
structure PipelineState where
  chapters : List ChapterData
  history_stack : List ChapterBatchHistory
  history_index : ℤ
  deriving DecidableEq, Repr

/-- `ProcessingPipeline.can_undo`: `history_index >= 0`. -/
def can_undo (s : PipelineState) : Bool :=
  0 ≤ s.history_index

/-- `ProcessingPipeline.can_redo`: `history_index < len(history_stack) - 1`. -/
def can_redo (s : PipelineState) : Bool :=
  s.history_index < (s.history_stack.length : ℤ) - 1

/-- Python list indexing `l[i]`, including negative indices;
`none` is an `IndexError`. -/
def pyGet (l : List α) (i : ℤ) : Option α :=
  if 0 ≤ i then l.get? i.toNat
  else if (-i).toNat ≤ l.length then l.get? (l.length - (-i).toNat) else none

/-- The `data` dictionary assembled and returned by undo/redo
(absent keys are `none`). -/
structure UndoRedoData where
  chapter_id : Option ℕ
  old_title : Option HistVal := none
  new_title : Option HistVal := none
  title_changes : Option (List (ℕ × String × String)) := none
  selection_changes : Option (List (ℕ × String × String)) := none
  chapter_index : Option ℤ := none
  chapter_data : Option HistVal := none
  deriving DecidableEq, Repr

/-- The shared data-building block of `undo` and `redo`: reads only the
chapter list and the history operation. For `AI_CLEANUP` the stored
`old_value` is always an `aiDict` (shape written by `add_to_history`);
on any other shape Python's `.get` would raise before returning. -/
def buildUndoRedoData (chapters : List ChapterData) (op : ChapterHistory) :
    Option UndoRedoData :=
  let base : UndoRedoData := { chapter_id := op.chapter_id }
  match op.action_type with
  | .edit_title =>
    some { base with old_title := some op.old_value, new_title := some op.new_value }
  | .ai_cleanup =>
    match op.old_value with
    | .aiDict tc sc => some { base with title_changes := some tc, selection_changes := some sc }
    | _ => none
  | .delete =>
    let chapter_index : Option ℤ :=
      match op.old_value with
      | .chapterDict cdid =>
        match chapters.findIdx? (fun ch => ch.id == cdid) with
        | some i => some (i : ℤ)
        | none => op.chapter_id.map (fun c => (c : ℤ))
      | _ => op.chapter_id.map (fun c => (c : ℤ))
    some { base with chapter_index := chapter_index, chapter_data := some op.old_value }
  | _ => some base

/-- `ProcessingPipeline.undo`. Returns the post-call state together with
either the `{"action_type": ..., "data": ...}` result or the raised
error. The stack is read before the index is decremented. -/
def ProcessingPipeline.undo (s : PipelineState) :
    PipelineState × Except String (String × UndoRedoData) :=
  if ¬ can_undo s then (s, .error "Cannot undo")
  else
    match pyGet s.history_stack s.history_index with
    | none => (s, .error "IndexError")
    | some current_action =>
      match current_action.operations.head? with
      | none => (s, .error "IndexError")
      | some operation =>
        match buildUndoRedoData s.chapters operation with
        | none => ({ s with history_index := s.history_index - 1 }, .error "AttributeError")
        | some data =>
          ({ s with history_index := s.history_index - 1 },
            .ok (operation.action_type.value, data))

/-- `ProcessingPipeline.redo`. The index is incremented before the stack
is read. -/
def ProcessingPipeline.redo (s : PipelineState) :
    PipelineState × Except String (String × UndoRedoData) :=
  if ¬ can_redo s then (s, .error "Cannot redo")
  else
    let s' : PipelineState := { s with history_index := s.history_index + 1 }
    match pyGet s'.history_stack s'.history_index with
    | none => (s', .error "IndexError")
    | some action_to_redo =>
      match action_to_redo.operations.head? with
      | none => (s', .error "IndexError")
      | some operation =>
        match buildUndoRedoData s'.chapters operation with
        | none => (s', .error "AttributeError")
        | some data =>
          (s', .ok (operation.action_type.value, data))

/-! ### VAD gap merger (`VadDetectionService._merge_overlapping_gaps`) -/

/-- The coalescing loop: `last` is the interval under construction;
a gap starting within `last.end + 1.0` extends it, otherwise `last`
is emitted and the gap starts a new interval. -/
def mergeLoop : List (ℚ × ℚ) → ℚ × ℚ → List (ℚ × ℚ)
  | [], last => [last]
  | g :: rest, last =>
    if g.1 ≤ last.2 + 1 then mergeLoop rest (last.1, max last.2 g.2)
    else last :: mergeLoop rest g

/-- The result of sorting by start and coalescing, before the final
length filter. -/
def mergedGaps (all_gaps : List (ℚ × ℚ)) : List (ℚ × ℚ) :=
  match all_gaps.insertionSort (fun a b => a.1 ≤ b.1) with
  | [] => []
  | g :: rest => mergeLoop rest g

/-- `_merge_overlapping_gaps`: sort by start, coalesce gaps whose
separation is `≤ 1.0 s`, then drop merged gaps shorter than
`min_silence_duration`. -/
def merge_overlapping_gaps (min_silence_duration : ℚ) (all_gaps : List (ℚ × ℚ)) :
    List (ℚ × ℚ) :=
  (mergedGaps all_gaps).filter (fun g => min_silence_duration ≤ g.2 - g.1)

/-- Membership of a time point in the union of a list of closed
intervals. -/
def inUnion (p : ℚ) (gaps : List (ℚ × ℚ)) : Bool :=
  gaps.any (fun g => g.1 ≤ p && p ≤ g.2)

instance : IsTotal (ℚ × ℚ) (fun a b => a.1 ≤ b.1) :=
  ⟨fun _ _ => le_total _ _⟩

instance : IsTrans (ℚ × ℚ) (fun a b => a.1 ≤ b.1) :=
  ⟨fun _ _ _ => le_trans⟩

/-! ### Smart detection (`SmartDetectionService`) -/

/-- `app/services/processing_pipeline.py`, `SmartDetectConfig` defaults. -/
structure SmartDetectConfig where
  segment_length : ℚ := 8
  min_clip_length : ℚ := 1
  asr_buffer : ℚ := 1/4
  min_silence_duration : ℚ := 2
  deriving DecidableEq, Repr

/-- Interface of a k-means fit: seed → 1-D samples → cluster count →
`(labels, cluster centers)`, or `none` where fitting raises. -/
abbrev KMeansFn := ℕ → List ℚ → ℕ → Option (List ℕ × List ℚ)

/-- First index of the minimum distance to `x` (`nearest center`). -/
def nearestCenter (centers : List ℚ) (x : ℚ) : ℕ :=
  (centers.enum.foldl
    (fun best p => if |p.2 - x| < |best.2 - x| then p else best)
    (0, centers.headD 0)).1

/-- One Lloyd update: replace each center by the mean of the samples
assigned to it (keeping it when its cluster is empty). -/
def lloydStep (data : List ℚ) (centers : List ℚ) : List ℚ :=
  centers.enum.map (fun p =>
    let pts := data.filter (fun x => nearestCenter centers x = p.1)
    if pts.isEmpty then p.2 else pts.sum / pts.length)

/-- Modelled from the spec: scikit-learn's `KMeans` (third-party, not in
`src/`). The interface facts the service relies on are embedded: fitting
raises `ValueError` when `n_samples < n_clusters` (the service catches it
and returns `{}`), and with the fixed `random_state` the fit is a
deterministic pure function of its inputs. Lloyd iterations from a
deterministic initialization stand in for the library's exact algorithm;
no theorem depends on the returned cluster assignments beyond shape and
determinism. -/
def kmeansFit : KMeansFn := fun _seed data k =>
  if data.length < k ∨ k = 0 then none
  else
    let centers := (Nat.iterate (lloydStep data) 10) (data.take k)
    some (data.map (nearestCenter centers), centers)

/-- Indices of `centers` ordered by descending value
(`np.argsort(-centers)`). -/
def argsortDesc (centers : List ℚ) : List ℕ :=
  (centers.enum.insertionSort (fun a b => b.2 ≤ a.2)).map (·.1)

/-- The candidate-collection loop of `generate_cue_set`: for every
silence labelled with a selected cluster, the candidate cue is
`silence.end - asr_buffer`, skipped when within `min_clip_length` of an
already-kept cue. -/
def collectCues (cfg : SmartDetectConfig) (silences : List (ℚ × ℚ))
    (labels : List ℕ) (ranks : List ℕ) : List ℚ :=
  silences.enum.foldl
    (fun acc p =>
      if ranks.contains (labels.getD p.1 0) then
        let new_cue := p.2.2 - cfg.asr_buffer
        if acc.any (fun e => |new_cue - e| < cfg.min_clip_length) then acc
        else acc ++ [new_cue]
      else acc)
    []

/-- The tail of `generate_cue_set`'s per-`top_n` body: if the first cue is
`≤ segment_length + min_clip_length` it is changed to `0`, otherwise `0`
is prepended; then a last cue `> book_length - segment_length` is
removed. -/
def postProcessCues (cfg : SmartDetectConfig) (book_length : ℚ)
    (sorted_cues : List ℚ) : List ℚ :=
  let cs1 :=
    match sorted_cues with
    | [] => [0]
    | c :: rest =>
      if c ≤ cfg.segment_length + cfg.min_clip_length then 0 :: rest
      else 0 :: c :: rest
  match cs1.getLast? with
  | some l => if book_length - cfg.segment_length < l then cs1.dropLast else cs1
  | none => cs1

/-- Python-dict assignment on an insertion-ordered association list:
an existing key keeps its position, a new key is appended. -/
def dictUpsert (d : List (ℕ × List ℚ)) (k : ℕ) (v : List ℚ) : List (ℕ × List ℚ) :=
  if d.any (fun p => p.1 = k) then d.map (fun p => if p.1 = k then (k, v) else p)
  else d ++ [(k, v)]

/-- Python `dict.update`. -/
def dictMerge (d e : List (ℕ × List ℚ)) : List (ℕ × List ℚ) :=
  e.foldl (fun acc p => dictUpsert acc p.1 p.2) d

/-- `SmartDetectionService.generate_cue_set`, parametric in the k-means
fit. The service always calls the fit with `random_state = 1337`. -/
def generate_cue_set (km : KMeansFn) (cfg : SmartDetectConfig)
    (silences : List (ℚ × ℚ)) (book_length : ℚ) (k_clusters : ℕ) :
    List (ℕ × List ℚ) :=
  if silences.isEmpty || k_clusters < 2 then []
  else
    let silence_durations := silences.map (fun s => s.2 - s.1)
    match km 1337 silence_durations k_clusters with
    | none => []
    | some (labels, centers) =>
      (List.range (k_clusters - 1)).foldl
        (fun acc i =>
          let top_n := i + 1
          let cluster_ranks := (argsortDesc centers).take top_n
          let cue_set := collectCues cfg silences labels cluster_ranks
          let final := postProcessCues cfg book_length (cue_set.insertionSort (fun a b => a ≤ b))
          dictUpsert acc final.length final)
        []

/-- Maximal runs of consecutive integers, as `(first, last)` pairs
(`_filter_consecutive_counts`'s grouping loop). -/
def groupRuns : List ℕ → List (ℕ × ℕ)
  | [] => []
  | x :: xs =>
    match groupRuns xs with
    | [] => [(x, x)]
    | (a, b) :: rest =>
      if a = x + 1 then (x, b) :: rest else (x, x) :: (a, b) :: rest

/-- `SmartDetectionService._filter_consecutive_counts`: per run keep the
single element, the larger of two, or the first and last of three or
more; return sorted. -/
def filter_consecutive_counts (chapter_counts : List ℕ) : List ℕ :=
  if chapter_counts.length ≤ 1 then chapter_counts
  else
    let picks :=
      (groupRuns chapter_counts).foldr
        (fun r acc =>
          (if r.2 = r.1 then [r.1]
           else if r.2 = r.1 + 1 then [r.2]
           else [r.1, r.2]) ++ acc)
        []
    picks.insertionSort (fun a b => a ≤ b)

/-- `SmartDetectionService.get_clustered_cue_sets`. -/
def get_clustered_cue_sets (km : KMeansFn) (cfg : SmartDetectConfig)
    (silences : List (ℚ × ℚ)) (book_length : ℚ) : List (ℕ × List ℚ) :=
  let k_clusters_max := min 15 silences.length
  let all_clusters :=
    (List.range' 2 (k_clusters_max + 1 - 2)).foldl
      (fun acc k => dictMerge acc (generate_cue_set km cfg silences book_length k))
      []
  let cluster_list := all_clusters.insertionSort (fun a b => a.1 ≤ b.1)
  let chapter_counts := cluster_list.map (·.1)
  let filtered_counts := filter_consecutive_counts chapter_counts
  filtered_counts.foldl
    (fun acc count =>
      match cluster_list.find? (fun p => p.1 = count) with
      | some p => acc ++ [p]
      | none => acc)
    []

/-! ### Chapter HTTP routes (`app/api/routes/chapters.py`) -/

/-- The pipeline fields read by the add-options and add-chapter routes. -/
structure RoutePipelineState where
  chapters : List ChapterData
  book_duration : ℚ
  detected_silences : List (ℚ × ℚ)
  asr_buffer : ℚ := 1/4
  existing_cue_sources : List (String × List (ℚ × String))
  deriving Repr

/-- One detected silence cue in an `AddOptionsResponse`. -/
structure DetectedCueR where
  timestamp : ℚ
  gap : ℚ
  deriving DecidableEq, Repr

/-- `AddOptionsResponse`. -/
structure AddOptionsResponse where
  min_timestamp : ℚ
  max_timestamp : ℚ
  detected_cues : List DetectedCueR
  existing_cues : List (String × List (ℚ × String))
  deleted : List (ℚ × String)
  deriving DecidableEq, Repr

/-- The next-chapter scan of `get_add_options`: the chapter following the
one with the given id in timestamp-sorted order. -/
def findAfter : List ChapterData → ℕ → Option ChapterData
  | [], _ => none
  | c :: rest, cid => if c.id == cid then rest.head? else findAfter rest cid

/-- `get_add_options`: the permitted window is
`[anchor + 0.25, next - 0.25]`; cue candidates are collected strictly
inside the (wider, `±1`) scan window. -/
def get_add_options (p : RoutePipelineState) (chapter_id : ℕ) :
    Except String AddOptionsResponse :=
  let chapters := p.chapters.filter (fun ch => !ch.deleted)
  match chapters.find? (fun ch => ch.id == chapter_id) with
  | none => .error "Chapter not found"
  | some current_chapter =>
    let sortedChs := chapters.insertionSort (fun a b => a.timestamp ≤ b.timestamp)
    let next_chapter := findAfter sortedChs chapter_id
    let min_timestamp_raw := current_chapter.timestamp
    let max_timestamp_raw :=
      match next_chapter with
      | some ch => ch.timestamp
      | none => p.book_duration
    let minT := min_timestamp_raw + 1
    let maxT := max_timestamp_raw - 1
    let detected := p.detected_silences.filterMap (fun s =>
      let silence_end := s.2 - p.asr_buffer
      if minT < silence_end ∧ silence_end < maxT then
        some { timestamp := silence_end, gap := silence_end - s.1 }
      else none)
    let existing := p.existing_cue_sources.filterMap (fun src =>
      let source_cues := src.2.filter (fun c => minT < c.1 ∧ c.1 < maxT)
      if source_cues.isEmpty then none else some (src.1, source_cues))
    let deletedChs := p.chapters.filterMap (fun ch =>
      if ch.deleted ∧ minT < ch.timestamp ∧ ch.timestamp < maxT then
        some (ch.timestamp,
          if ch.current_title ≠ "" then ch.current_title else ch.asr_title)
      else none)
    .ok { min_timestamp := min_timestamp_raw + 1/4
          max_timestamp := max_timestamp_raw - 1/4
          detected_cues := detected
          existing_cues := existing
          deleted := deletedChs }

/-- Pydantic validation of a `ChapterData` construction: every field
without a default (`id`, `timestamp`, `asr_title`, `current_title`,
`audio_segment_path`) must be supplied, else a `ValidationError` is
raised. -/
def validateChapterData (idArg : Option ℕ) (timestampArg : Option ℚ)
    (asrTitleArg currentTitleArg : Option String)
    (audioSegmentPathArg : Option String) : Except String ChapterData :=
  match idArg, timestampArg, asrTitleArg, currentTitleArg, audioSegmentPathArg with
  | some i, some t, some a, some c, some pth =>
    .ok { id := i, timestamp := t, asr_title := a, current_title := c,
          audio_segment_path := pth }
  | _, _, _, _, _ => .error "ValidationError: missing required fields"

/-- `add_chapter` (POST /chapters): restore a deleted chapter within
`0.25 s` of the requested timestamp, else construct a fresh `ChapterData`
— passing neither `id` nor `audio_segment_path` — and insert it. Errors
leave the chapter list unchanged and surface as HTTP 4xx/5xx. -/
def add_chapter_route (p : RoutePipelineState) (timestamp : ℚ) (title : String) :
    Except String (List ChapterData) :=
  match p.chapters.find? (fun ch => ch.deleted && |ch.timestamp - timestamp| < 1/4) with
  | some existing_deleted =>
    let op : ChapterOperation :=
      .restore existing_deleted.id "" (if title ≠ "" then some title else none)
    match op.apply p.chapters with
    | some pr => .ok pr.2
    | none => .error "ValueError: chapter not found"
  | none =>
    match validateChapterData none (some timestamp) (some "") (some title) none with
    | .error e => .error e
    | .ok ch => .ok (insertChapter ch p.chapters)

/-! ### Chapter aligner (`app/services/chapter_aligner.py`)

The aligner is embedded parametrically in the two transcendental float
functions it uses: `pen` stands for `x ↦ x ** 1.5` (applied to the halved
absolute time difference, so its argument is nonnegative and
`pen x ≥ 0`), and `ex` stands for `np.exp`. The theorems assume exactly
the facts true of those functions that they need. -/

/-- One source chapter `{"time": ..., "title": ...}`. -/
structure SourceChapter where
  time : ℚ
  title : String
  deriving DecidableEq, Repr

/-- One detected cue `{"time": ..., "silence_duration": ...}`. -/
structure Cue where
  time : ℚ
  silence_duration : ℚ
  deriving DecidableEq, Repr

instance : Inhabited Cue := ⟨⟨0, 0⟩⟩

instance : Inhabited SourceChapter := ⟨⟨0, ""⟩⟩

/-- One aligned result dict. -/
structure AlignResult where
  title : String
  timestamp : ℚ
  confidence : ℚ
  is_guess : Bool
  matched_silence : ℚ
  deriving DecidableEq, Repr

instance : Inhabited AlignResult :=
  ⟨⟨"", 0, 0, true, 0⟩⟩

/-- `ChapterAligner` default `max_drift`. -/
def maxDrift : ℚ := 120

/-- `ChapterAligner._calculate_match_cost`. -/
def matchCost (pen : ℚ → ℚ) (expected_t cue_t silence : ℚ) : ℚ :=
  let time_diff := |expected_t - cue_t|
  let time_penalty := pen (time_diff / 2)
  let silence_reward := min (silence * (15/2)) 25
  let cost := time_penalty - silence_reward
  if maxDrift < time_diff then cost + 1000 else cost

/-- First element attaining the maximum score (`np.argmax` keeps the
earliest maximum); pairs are `(score, payload)`. -/
def argmaxFirst (l : List (ℚ × ℚ)) : ℚ × ℚ :=
  match l with
  | [] => (0, 0)
  | x :: xs => xs.foldl (fun best p => if best.1 < p.1 then p else best) x

/-- `ChapterAligner._estimate_transform`: anchor selection, weighted
least squares (`np.linalg.solve` on the 2×2 normal equations; a singular
system raises `LinAlgError` and falls back to the duration ratio), and
the two sanity clamps. -/
def estimateTransform (src_times : List ℚ) (cues : List Cue)
    (total_duration_source total_duration_actual : ℚ) : ℚ × ℚ :=
  let base_scale :=
    if 0 < total_duration_source then total_duration_actual / total_duration_source else 1
  let candidates := src_times.filterMap (fun src_t =>
    let expected_t := src_t * base_scale
    let nearby := cues.filter (fun c => |c.time - expected_t| < 120)
    if nearby.isEmpty then none
    else
      let scored := nearby.map (fun c =>
        (min (c.silence_duration / 3) 1 * (3/5) +
          max 0 (1 - |c.time - expected_t| / 60) * (2/5), c.time))
      let best := argmaxFirst scored
      some (src_t, best.2, best.1))
  if candidates.length < 2 then (base_scale, 0)
  else
    let sw := (candidates.map (fun c => c.2.2)).sum
    let swx := (candidates.map (fun c => c.2.2 * c.1)).sum
    let swy := (candidates.map (fun c => c.2.2 * c.2.1)).sum
    let swxx := (candidates.map (fun c => c.2.2 * c.1 * c.1)).sum
    let swxy := (candidates.map (fun c => c.2.2 * c.1 * c.2.1)).sum
    let det := swxx * sw - swx * swx
    if det = 0 then (base_scale, 0)
    else
      let scale := (sw * swxy - swx * swy) / det
      let offset := (swxx * swy - swx * swxy) / det
      let (scale, offset) :=
        if ¬ (9/10 ≤ scale ∧ scale ≤ 11/10) then (base_scale, 0) else (scale, offset)
      let offset := if 300 < |offset| then 0 else offset
      (scale, offset)

/-- DP values: `none` embeds float `inf`. Python's `<` on
possibly-infinite values: `inf` is smaller than nothing, and every
finite value is smaller than `inf`. -/
def dpLt : Option ℚ → Option ℚ → Bool
  | none, _ => false
  | some _, none => true
  | some a, some b => a < b

/-- Adding a finite cost to a possibly-infinite DP value. -/
def dpAdd (x : Option ℚ) (c : ℚ) : Option ℚ :=
  x.map (· + c)

/-- A DP cell: its value and its traceback entry
`(prev_i, prev_j, matched_cue)`; `matched_cue = none` embeds `-1`,
an absent entry embeds Python `None`. -/
abbrev DpCell := Option ℚ × Option (ℕ × ℕ × Option ℕ)

/-- One row (`irow ≥ 1`) of the DP table of `_match_chapters_to_cues`,
computed cell by cell from the previous row `prevRow`. A cell `(irow, j)`
with `j < irow` is never written by the loops (it stays `inf`/`None`);
otherwise the three transitions (match, skip cue, no-match) are applied
in source order, each overwriting the cell when strictly cheaper. -/
def dpCellRow (pen : ℚ → ℚ) (expTs cueTs cueSs : List ℚ)
    (prevRow : ℕ → DpCell) (irow : ℕ) : ℕ → DpCell
  | 0 => (none, none)
  | j + 1 =>
    if j + 1 < irow then (none, none)
    else
      let mc := matchCost pen (expTs.getD (irow - 1) 0) (cueTs.getD j 0) (cueSs.getD j 0)
      let prev := prevRow j
      let c1 : DpCell :=
        if prev.1.isSome then (dpAdd prev.1 mc, some (irow - 1, j, some j))
        else (none, none)
      let left := dpCellRow pen expTs cueTs cueSs prevRow irow j
      let c2 : DpCell := if dpLt left.1 c1.1 then left else c1
      let up := prevRow (j + 1)
      let c3 : DpCell :=
        if dpLt (dpAdd up.1 50) c2.1 then (dpAdd up.1 50, some (irow - 1, j + 1, none)) else c2
      c3

/-- The full DP table, row-wise: row `0` is the initialization
(`dp[0][j] = 0` with back-pointer `(0, j-1, -1)`). -/
def dpRowFun (pen : ℚ → ℚ) (expTs cueTs cueSs : List ℚ) : ℕ → ℕ → DpCell
  | 0 => fun j => (some 0, some (0, j - 1, none))
  | i + 1 => dpCellRow pen expTs cueTs cueSs (dpRowFun pen expTs cueTs cueSs i) (i + 1)

/-- The DP table of `_match_chapters_to_cues`, cellwise. -/
def dpCell (pen : ℚ → ℚ) (expTs cueTs cueSs : List ℚ) (i j : ℕ) : DpCell :=
  dpRowFun pen expTs cueTs cueSs i j

/-- The back-pointer walk of `_match_chapters_to_cues`. The fuel bounds
the `while i > 0` loop; every traceback entry in row `i ≥ 1` points to
row `i - 1` (`dpCell` only writes such entries), so fuel
`n_chapters + 1` never runs out. -/
def tracebackGo (pen : ℚ → ℚ) (expTs cueTs cueSs : List ℚ) :
    ℕ → ℕ → ℕ → List (Option ℕ) → List (Option ℕ)
  | 0, _, _, ms => ms
  | _ + 1, 0, _, ms => ms
  | fuel + 1, i + 1, j, ms =>
    match (dpCell pen expTs cueTs cueSs (i + 1) j).2 with
    | none => ms
    | some (prev_i, prev_j, matched_cue) =>
      let ms' :=
        if prev_i = i ∧ matched_cue.isSome then ms.set i matched_cue else ms
      tracebackGo pen expTs cueTs cueSs fuel prev_i prev_j ms'

/-- `ChapterAligner._match_chapters_to_cues`. -/
def matchChaptersToCues (pen : ℚ → ℚ) (expTs cueTs cueSs : List ℚ) :
    List (Option ℕ) :=
  tracebackGo pen expTs cueTs cueSs (expTs.length + 1) expTs.length cueTs.length
    (List.replicate expTs.length none)

/-- `ChapterAligner._calculate_confidence`
(`np.clip(0.65·exp(−Δt/30) + 0.35·min(sil/4, 1), 0, 1)`). -/
def calcConfidence (ex : ℚ → ℚ) (time_diff silence : ℚ) : ℚ :=
  let time_score := ex (-time_diff / 30)
  let silence_score := min (silence / 4) 1
  let confidence := (13/20) * time_score + (7/20) * silence_score
  min 1 (max 0 confidence)

/-- `ChapterAligner._build_results`. -/
def buildResults (ex : ℚ → ℚ) (source_chapters : List SourceChapter)
    (detected_cues : List Cue) (ms : List (Option ℕ)) (expTs : List ℚ) :
    List AlignResult :=
  (List.range source_chapters.length).map (fun i =>
    let src := source_chapters.getD i default
    match ms.getD i none with
    | some match_idx =>
      let cue := detected_cues.getD match_idx default
      let time_diff := |expTs.getD i 0 - cue.time|
      { title := src.title
        timestamp := cue.time
        confidence := calcConfidence ex time_diff cue.silence_duration
        is_guess := false
        matched_silence := cue.silence_duration }
    | none =>
      { title := src.title
        timestamp := max 0 (expTs.getD i 0)
        confidence := 3/10
        is_guess := true
        matched_silence := 0 })

/-- `ChapterAligner._fallback_alignment` (empty detected cues). -/
def fallbackAlignment (source_chapters : List SourceChapter)
    (total_duration_source total_duration_actual : ℚ) :
    List AlignResult × (ℚ × ℚ) :=
  let scale :=
    if 0 < total_duration_source then total_duration_actual / total_duration_source else 1
  (source_chapters.map (fun chapter =>
    { title := chapter.title
      timestamp := max 0 (chapter.time * scale)
      confidence := 1/5
      is_guess := true
      matched_silence := 0 }), (scale, 0))

/-- `ChapterAligner.align`. -/
def align (pen ex : ℚ → ℚ) (source_chapters : List SourceChapter)
    (detected_cues : List Cue)
    (total_duration_source total_duration_actual : ℚ) :
    List AlignResult × (ℚ × ℚ) :=
  if source_chapters.isEmpty then ([], (1, 0))
  else if detected_cues.isEmpty then
    fallbackAlignment source_chapters total_duration_source total_duration_actual
  else
    let src_times := source_chapters.map (·.time)
    let cue_times := detected_cues.map (·.time)
    let cue_silences := detected_cues.map (·.silence_duration)
    let so := estimateTransform src_times detected_cues
      total_duration_source total_duration_actual
    let expected_times := src_times.map (fun t => t * so.1 + so.2)
    let ms := matchChaptersToCues pen expected_times cue_times cue_silences
    (buildResults ex source_chapters detected_cues ms expected_times, so)

/-! ## Theorems -/

/-! ### Helper lemmas -/

theorem mem_insertChapter {x ch : ChapterData} :
    ∀ {cs : List ChapterData}, x ∈ insertChapter ch cs → x = ch ∨ x ∈ cs := by
  intro cs
  induction cs with
  | nil => simp [insertChapter]
  | cons c rest ih =>
    simp only [insertChapter]
    split
    · simp +contextual [or_assoc]
    · intro h
      rcases List.mem_cons.mp h with rfl | h
      · exact Or.inr (List.mem_cons_self _ _)
      · rcases ih h with h | h
        · exact Or.inl h
        · exact Or.inr (List.mem_cons_of_mem _ h)

theorem insertChapter_pairwise {ch : ChapterData} :
    ∀ {cs : List ChapterData},
      cs.Pairwise (fun a b => a.timestamp ≤ b.timestamp) →
      (insertChapter ch cs).Pairwise (fun a b => a.timestamp ≤ b.timestamp) := by
  intro cs
  induction cs with
  | nil => simp [insertChapter]
  | cons c rest ih =>
    intro hp
    rw [List.pairwise_cons] at hp
    simp only [insertChapter]
    split
    · rename_i hlt
      refine List.pairwise_cons.mpr ⟨?_, List.pairwise_cons.mpr hp⟩
      intro b hb
      rcases List.mem_cons.mp hb with rfl | hb
      · exact le_of_lt hlt
      · exact le_trans (le_of_lt hlt) (hp.1 b hb)
    · rename_i hge
      push_neg at hge
      refine List.pairwise_cons.mpr ⟨?_, ih hp.2⟩
      intro b hb
      rcases mem_insertChapter hb with rfl | hb
      · exact hge
      · exact hp.1 b hb

theorem removeFirstById_sublist (cid : ℕ) :
    ∀ cs : List ChapterData, (removeFirstById cid cs).Sublist cs := by
  intro cs
  induction cs with
  | nil => simp [removeFirstById]
  | cons c rest ih =>
    simp only [removeFirstById]
    split
    · exact (List.sublist_cons_self c rest)
    · exact List.Sublist.cons₂ c ih

theorem insertChapter_eq_insertIdx (ch : ChapterData) :
    ∀ cs : List ChapterData,
      insertChapter ch cs =
        cs.insertIdx (cs.findIdx (fun c => decide (ch.timestamp < c.timestamp))) ch := by
  intro cs
  induction cs with
  | nil => rfl
  | cons c rest ih =>
    by_cases h : ch.timestamp < c.timestamp
    · simp [insertChapter, h, List.findIdx_cons, List.insertIdx]
    · simp [insertChapter, h, List.findIdx_cons, List.insertIdx, ih]

/-! ### C3: selection statistics -/

/-- C3 (counterexample): a single deleted chapter is counted in `total`,
so `total` is not the number of non-deleted chapters. -/
theorem c3_counterexample :
    (get_selection_stats
        [{ id := 0, timestamp := 0, asr_title := "", current_title := "",
           audio_segment_path := "", deleted := true }]).total ≠
      ([({ id := 0, timestamp := 0, asr_title := "", current_title := "",
           audio_segment_path := "", deleted := true } : ChapterData)].filter
          (fun c => !c.deleted)).length := by
  simp [get_selection_stats, List.filter]

/-- C3 (amended): `get_selection_stats` returns `total` equal to the
number of **all** chapters (deleted included), `selected` equal to the
number of non-deleted chapters whose internal selection flag is set, and
`unselected = total - selected`. -/
theorem c3_amended (cs : List ChapterData) :
    (get_selection_stats cs).total = cs.length ∧
    (get_selection_stats cs).selected =
      ((cs.filter (fun c => !c.deleted)).filter (fun c => c.selectedInternal)).length ∧
    (get_selection_stats cs).unselected =
      (get_selection_stats cs).total - (get_selection_stats cs).selected := by
  refine ⟨rfl, ?_, rfl⟩
  have : (cs.filter (fun c => ChapterData.selected c)) =
      ((cs.filter (fun c => !c.deleted)).filter (fun c => c.selectedInternal)) := by
    rw [List.filter_filter]
    apply List.filter_congr
    intro c _
    simp [ChapterData.selected, Bool.and_comm]
  simp [get_selection_stats, this]

/-! ### C8: AddChapter insertion position and order preservation -/

/-- C8: `AddChapterOperation.apply` inserts the chapter immediately
before the first existing chapter with strictly greater timestamp (index
`findIdx`, the length when none exists), its undo removes the first
chapter with the added id, and both directions preserve ordering by
timestamp. -/
theorem c8_addChapter (ch : ChapterData) (cs : List ChapterData)
    (hsorted : cs.Pairwise (fun a b => a.timestamp ≤ b.timestamp)) :
    ChapterOperation.apply (.add ch) cs = some (.add ch, insertChapter ch cs) ∧
    insertChapter ch cs =
      cs.insertIdx (cs.findIdx (fun c => decide (ch.timestamp < c.timestamp))) ch ∧
    (insertChapter ch cs).Pairwise (fun a b => a.timestamp ≤ b.timestamp) ∧
    (∀ cs', ChapterOperation.undo (.add ch) cs = some cs' →
      cs' = removeFirstById ch.id cs) ∧
    (removeFirstById ch.id cs).Pairwise (fun a b => a.timestamp ≤ b.timestamp) := by
  refine ⟨rfl, insertChapter_eq_insertIdx ch cs, insertChapter_pairwise hsorted, ?_, ?_⟩
  · intro cs' h
    unfold ChapterOperation.undo at h
    rcases hfind : find_chapter cs ch.id with _ | c <;> rw [hfind] at h
    · exact absurd h (by simp)
    · exact (Option.some_injective _ h).symm
  · exact hsorted.sublist (removeFirstById_sublist ch.id cs)

/-- C8 witness at a concrete sorted two-chapter list. -/
theorem c8_addChapter_witness :
    ([({ id := 1, timestamp := 10, asr_title := "", current_title := "a",
         audio_segment_path := "" } : ChapterData),
      { id := 2, timestamp := 20, asr_title := "", current_title := "b",
        audio_segment_path := "" }].Pairwise
        (fun a b => a.timestamp ≤ b.timestamp)) ∧
    (insertChapter
        { id := 3, timestamp := 15, asr_title := "", current_title := "c",
          audio_segment_path := "" }
        [{ id := 1, timestamp := 10, asr_title := "", current_title := "a",
           audio_segment_path := "" },
         { id := 2, timestamp := 20, asr_title := "", current_title := "b",
           audio_segment_path := "" }]).Pairwise
        (fun a b => a.timestamp ≤ b.timestamp) :=
  ⟨by norm_num, (c8_addChapter _ _ (by norm_num)).2.2.1⟩

/-! ### C10: undo/redo touch only the history index -/

theorem pyGet_isSome {α : Type} {l : List α} {i : ℤ} (h0 : 0 ≤ i)
    (hl : i < (l.length : ℤ)) : ∃ x, pyGet l i = some x := by
  unfold pyGet
  rw [if_pos h0]
  have hlt : i.toNat < l.length := by omega
  exact ⟨l.get ⟨i.toNat, hlt⟩, List.get?_eq_get hlt⟩

theorem pyGet_mem {α : Type} {l : List α} {i : ℤ} {x : α}
    (h : pyGet l i = some x) : x ∈ l := by
  unfold pyGet at h
  split at h
  · exact List.get?_mem h
  · split at h
    · exact List.get?_mem h
    · exact absurd h (by simp)

theorem buildUndoRedoData_isSome (cs : List ChapterData) (op : ChapterHistory)
    (h : op.action_type = .ai_cleanup → isAiDict op.old_value = true) :
    ∃ d, buildUndoRedoData cs op = some d := by
  unfold buildUndoRedoData
  cases hat : op.action_type <;> simp
  cases hov : op.old_value <;> simp_all [isAiDict]

/-- C10: on a well-formed pipeline state (index within
`[-1, len(history))`, history entries non-empty, AI-clean-up entries
carrying the dict payload written by `add_to_history`), `undo` with
`can_undo` decrements the history index by one and returns the affected
action's type string with its data, leaving chapters and stack untouched;
`redo` with `can_redo` increments it likewise; otherwise both raise with
the whole state unchanged. -/
theorem c10_undo_redo (s : PipelineState)
    (hwf : -1 ≤ s.history_index ∧ s.history_index < (s.history_stack.length : ℤ) ∧
      ∀ e ∈ s.history_stack, e.operations ≠ [] ∧
        ∀ op ∈ e.operations, op.action_type = .ai_cleanup → isAiDict op.old_value = true) :
    (can_undo s = true →
      (ProcessingPipeline.undo s).1 = { s with history_index := s.history_index - 1 } ∧
      ∃ e op d, pyGet s.history_stack s.history_index = some e ∧
        e.operations.head? = some op ∧
        (ProcessingPipeline.undo s).2 = .ok (op.action_type.value, d)) ∧
    (can_undo s = false → ProcessingPipeline.undo s = (s, .error "Cannot undo")) ∧
    (can_redo s = true →
      (ProcessingPipeline.redo s).1 = { s with history_index := s.history_index + 1 } ∧
      ∃ e op d, pyGet s.history_stack (s.history_index + 1) = some e ∧
        e.operations.head? = some op ∧
        (ProcessingPipeline.redo s).2 = .ok (op.action_type.value, d)) ∧
    (can_redo s = false → ProcessingPipeline.redo s = (s, .error "Cannot redo")) := by
  obtain ⟨hwf1, hwf2, hwf3⟩ := hwf
  refine ⟨?_, ?_, ?_, ?_⟩
  · intro hcu
    have h0 : 0 ≤ s.history_index := by simpa [can_undo] using hcu
    obtain ⟨e, he⟩ := pyGet_isSome h0 hwf2
    obtain ⟨hene, hai⟩ := hwf3 e (pyGet_mem he)
    obtain ⟨op, hop⟩ : ∃ op, e.operations.head? = some op := by
      cases h : e.operations with
      | nil => exact absurd h hene
      | cons a l => exact ⟨a, by simp [h]⟩
    obtain ⟨d, hd⟩ := buildUndoRedoData_isSome s.chapters op
      (hai op (List.mem_of_mem_head? hop))
    constructor
    · simp [ProcessingPipeline.undo, hcu, he, hop, hd]
    · exact ⟨e, op, d, he, hop, by simp [ProcessingPipeline.undo, hcu, he, hop, hd]⟩
  · intro hcu
    simp [ProcessingPipeline.undo, hcu]
  · intro hcr
    have hlt : s.history_index < (s.history_stack.length : ℤ) - 1 := by
      simpa [can_redo] using hcr
    have h0 : 0 ≤ s.history_index + 1 := by omega
    have h1 : s.history_index + 1 < (s.history_stack.length : ℤ) := by omega
    obtain ⟨e, he⟩ := pyGet_isSome h0 h1
    obtain ⟨hene, hai⟩ := hwf3 e (pyGet_mem he)
    obtain ⟨op, hop⟩ : ∃ op, e.operations.head? = some op := by
      cases h : e.operations with
      | nil => exact absurd h hene
      | cons a l => exact ⟨a, by simp [h]⟩
    obtain ⟨d, hd⟩ := buildUndoRedoData_isSome s.chapters op
      (hai op (List.mem_of_mem_head? hop))
    constructor
    · simp [ProcessingPipeline.redo, hcr, he, hop, hd]
    · exact ⟨e, op, d, he, hop, by simp [ProcessingPipeline.redo, hcr, he, hop, hd]⟩
  · intro hcr
    simp [ProcessingPipeline.redo, hcr]

/-- C10 witness: a state with one history entry and index 0, where undo
is possible and redo is not. -/
theorem c10_undo_redo_witness :
    ((-1 : ℤ) ≤ (0 : ℤ) ∧ (0 : ℤ) <
        (([({ operations := [{ action_type := .delete, chapter_id := some 0,
                               old_value := .chapterDict 0, new_value := .nil }],
              description := "delete operation" } : ChapterBatchHistory)]).length : ℤ) ∧
      ∀ e ∈ [({ operations := [{ action_type := .delete, chapter_id := some 0,
                                 old_value := .chapterDict 0, new_value := .nil }],
                description := "delete operation" } : ChapterBatchHistory)],
        e.operations ≠ [] ∧
        ∀ op ∈ e.operations, op.action_type = .ai_cleanup → isAiDict op.old_value = true) ∧
    (can_undo { chapters := [], history_stack :=
        [{ operations := [{ action_type := .delete, chapter_id := some 0,
                            old_value := .chapterDict 0, new_value := .nil }],
           description := "delete operation" }], history_index := 0 } = true →
      (ProcessingPipeline.undo { chapters := [], history_stack :=
          [{ operations := [{ action_type := .delete, chapter_id := some 0,
                              old_value := .chapterDict 0, new_value := .nil }],
             description := "delete operation" }], history_index := 0 }).1 =
        { chapters := [], history_stack :=
            [{ operations := [{ action_type := .delete, chapter_id := some 0,
                                old_value := .chapterDict 0, new_value := .nil }],
               description := "delete operation" }], history_index := (0 : ℤ) - 1 } ∧
      ∃ e op d, pyGet
          [({ operations := [{ action_type := .delete, chapter_id := some 0,
                               old_value := .chapterDict 0, new_value := .nil }],
              description := "delete operation" } : ChapterBatchHistory)] (0 : ℤ) = some e ∧
        e.operations.head? = some op ∧
        (ProcessingPipeline.undo { chapters := [], history_stack :=
            [{ operations := [{ action_type := .delete, chapter_id := some 0,
                                old_value := .chapterDict 0, new_value := .nil }],
               description := "delete operation" }], history_index := 0 }).2 =
          .ok (op.action_type.value, d)) :=
  ⟨⟨by norm_num, by norm_num, by simp⟩,
    (c10_undo_redo _ ⟨by norm_num, by norm_num, by simp⟩).1⟩

/-! ### C6: VAD gap merging -/

theorem mergeLoop_starts_ge {c : ℚ} :
    ∀ {l : List (ℚ × ℚ)} {last : ℚ × ℚ}, (∀ x ∈ l, c ≤ x.1) → c ≤ last.1 →
      ∀ b ∈ mergeLoop l last, c ≤ b.1 := by
  intro l
  induction l with
  | nil =>
    intro last _ hlast b hb
    simp only [mergeLoop, List.mem_singleton] at hb
    exact hb ▸ hlast
  | cons g rest ih =>
    intro last hl hlast b hb
    simp only [mergeLoop] at hb
    split at hb
    · exact @ih (last.1, max last.2 g.2) (fun x hx => hl x (List.mem_cons_of_mem _ hx))
        hlast b hb
    · rcases List.mem_cons.mp hb with rfl | hb
      · exact hlast
      · exact @ih g (fun x hx => hl x (List.mem_cons_of_mem _ hx))
          (hl g (List.mem_cons_self _ _)) b hb

theorem mergeLoop_chain :
    ∀ {l : List (ℚ × ℚ)} {last : ℚ × ℚ},
      l.Pairwise (fun a b => a.1 ≤ b.1) → (∀ x ∈ l, last.1 ≤ x.1) →
      (mergeLoop l last).Pairwise (fun a b => a.2 + 1 < b.1) := by
  intro l
  induction l with
  | nil => intro last _ _; simp [mergeLoop]
  | cons g rest ih =>
    intro last hsort hlb
    rw [List.pairwise_cons] at hsort
    simp only [mergeLoop]
    split
    · exact ih hsort.2 (fun x hx => hlb x (List.mem_cons_of_mem _ hx))
    · rename_i hfar
      push_neg at hfar
      refine List.pairwise_cons.mpr ⟨?_, ih hsort.2 hsort.1⟩
      intro b hb
      have hgb : g.1 ≤ b.1 :=
        mergeLoop_starts_ge hsort.1 (le_refl g.1) b hb
      exact lt_of_lt_of_le hfar hgb

theorem mergeLoop_covers :
    ∀ {l : List (ℚ × ℚ)} {last : ℚ × ℚ},
      l.Pairwise (fun a b => a.1 ≤ b.1) → (∀ x ∈ l, last.1 ≤ x.1) →
      (∃ m ∈ mergeLoop l last, m.1 ≤ last.1 ∧ last.2 ≤ m.2) ∧
      (∀ g ∈ l, ∃ m ∈ mergeLoop l last, m.1 ≤ g.1 ∧ g.2 ≤ m.2) := by
  intro l
  induction l with
  | nil =>
    intro last _ _
    exact ⟨⟨last, by simp [mergeLoop]⟩, by simp⟩
  | cons g rest ih =>
    intro last hsort hlb
    rw [List.pairwise_cons] at hsort
    simp only [mergeLoop]
    split
    · rename_i hnear
      have hlb' : ∀ x ∈ rest, ((last.1, max last.2 g.2) : ℚ × ℚ).1 ≤ x.1 :=
        fun x hx => hlb x (List.mem_cons_of_mem _ hx)
      obtain ⟨⟨m, hm, hm1, hm2⟩, hrest⟩ := ih hsort.2 hlb'
      refine ⟨⟨m, hm, hm1, le_trans (le_max_left _ _) hm2⟩, ?_⟩
      intro x hx
      rcases List.mem_cons.mp hx with rfl | hx
      · exact ⟨m, hm, le_trans hm1 (hlb x (List.mem_cons_self _ _)),
          le_trans (le_max_right _ _) hm2⟩
      · exact hrest x hx
    · obtain ⟨⟨m, hm, hm1, hm2⟩, hrest⟩ := ih hsort.2 hsort.1
      refine ⟨⟨last, List.mem_cons_self _ _, le_refl _, le_refl _⟩, ?_⟩
      intro x hx
      rcases List.mem_cons.mp hx with rfl | hx
      · exact ⟨m, List.mem_cons_of_mem _ hm, hm1, hm2⟩
      · obtain ⟨m', hm', h1, h2⟩ := hrest x hx
        exact ⟨m', List.mem_cons_of_mem _ hm', h1, h2⟩

/-- C6 (counterexample): for raw gaps `[(0,2), (2.5,4.5)]` (each of
length `2 ≥ min_silence_duration = 2`, so no sub-threshold fragments),
the merger coalesces them into `[(0, 4.5)]`, whose union contains the
bridging point `2.25` that belongs to no raw gap — the returned union is
strictly larger than the raw union. -/
theorem c6_counterexample :
    merge_overlapping_gaps 2 [(0, 2), ((5 : ℚ)/2, (9 : ℚ)/2)] = [(0, (9 : ℚ)/2)] ∧
    inUnion ((9 : ℚ)/4) (merge_overlapping_gaps 2 [(0, 2), ((5 : ℚ)/2, (9 : ℚ)/2)]) = true ∧
    inUnion ((9 : ℚ)/4) [(0, 2), ((5 : ℚ)/2, (9 : ℚ)/2)] = false ∧
    (∀ g ∈ [((0 : ℚ), (2 : ℚ)), ((5 : ℚ)/2, (9 : ℚ)/2)], (2 : ℚ) ≤ g.2 - g.1) := by
  refine ⟨?_, ?_, ?_, ?_⟩
  · norm_num [merge_overlapping_gaps, mergedGaps, mergeLoop, List.insertionSort,
      List.orderedInsert, max_def, List.filter]
  · norm_num [merge_overlapping_gaps, mergedGaps, mergeLoop, List.insertionSort,
      List.orderedInsert, max_def, List.filter, inUnion]
  · norm_num [inUnion]
  · norm_num

/-- C6 (amended): the reported silences are pairwise separated by more
than `1 s` (hence non-overlapping), each has length
`≥ min_silence_duration`, and every raw gap is contained in some merged
interval; but the merged intervals also absorb the `≤ 1 s` bridges
between nearby raw gaps, so the returned union is the filtered merged
union, which may strictly exceed the raw union. -/
theorem c6_amended (min_silence_duration : ℚ) (all_gaps : List (ℚ × ℚ)) :
    (merge_overlapping_gaps min_silence_duration all_gaps).Pairwise
      (fun a b => a.2 + 1 < b.1) ∧
    (∀ g ∈ merge_overlapping_gaps min_silence_duration all_gaps,
      min_silence_duration ≤ g.2 - g.1) ∧
    (∀ g ∈ all_gaps, ∃ m ∈ mergedGaps all_gaps, m.1 ≤ g.1 ∧ g.2 ≤ m.2) ∧
    merge_overlapping_gaps min_silence_duration all_gaps =
      (mergedGaps all_gaps).filter
        (fun g => decide (min_silence_duration ≤ g.2 - g.1)) := by
  have hsorted : (all_gaps.insertionSort (fun a b => a.1 ≤ b.1)).Pairwise
      (fun a b => a.1 ≤ b.1) :=
    List.sorted_insertionSort _ all_gaps
  have hmg : (mergedGaps all_gaps).Pairwise (fun a b => a.2 + 1 < b.1) := by
    unfold mergedGaps
    rcases h : all_gaps.insertionSort (fun a b => a.1 ≤ b.1) with _ | ⟨g, rest⟩
    · rw [h]; exact List.Pairwise.nil
    · rw [h]
      rw [h, List.pairwise_cons] at hsorted
      exact mergeLoop_chain hsorted.2 hsorted.1
  refine ⟨?_, ?_, ?_, rfl⟩
  · exact hmg.sublist (List.filter_sublist _)
  · intro g hg
    rw [merge_overlapping_gaps, List.mem_filter] at hg
    simpa using hg.2
  · intro g hg
    have hmem : g ∈ all_gaps.insertionSort (fun a b => a.1 ≤ b.1) :=
      (List.perm_insertionSort _ all_gaps).mem_iff.mpr hg
    unfold mergedGaps
    rcases h : all_gaps.insertionSort (fun a b => a.1 ≤ b.1) with _ | ⟨x, rest⟩
    · rw [h] at hmem; exact absurd hmem (by simp)
    · rw [h] at hmem hsorted
      rw [List.pairwise_cons] at hsorted
      rw [h]
      rcases List.mem_cons.mp hmem with rfl | hmem
      · exact (mergeLoop_covers hsorted.2 hsorted.1).1
      · exact (mergeLoop_covers hsorted.2 hsorted.1).2 g hmem

/-! ### C5: cue-set post-processing and the snap-to-zero scenario -/

theorem dropLast_zero_cons (xs : List ℚ) :
    ((0 : ℚ) :: xs).dropLast = [] ∨ (((0 : ℚ) :: xs).dropLast).head? = some 0 := by
  cases xs <;> simp

theorem postProcessCues_head (cfg : SmartDetectConfig) (book : ℚ) (l : List ℚ) :
    postProcessCues cfg book l = [] ∨ (postProcessCues cfg book l).head? = some 0 := by
  have key : ∀ xs : List ℚ,
      (match ((0 : ℚ) :: xs).getLast? with
        | some lv => if book - cfg.segment_length < lv then ((0 : ℚ) :: xs).dropLast
            else (0 : ℚ) :: xs
        | none => (0 : ℚ) :: xs) = [] ∨
      (match ((0 : ℚ) :: xs).getLast? with
        | some lv => if book - cfg.segment_length < lv then ((0 : ℚ) :: xs).dropLast
            else (0 : ℚ) :: xs
        | none => (0 : ℚ) :: xs).head? = some 0 := by
    intro xs
    rcases hl : ((0 : ℚ) :: xs).getLast? with _ | lv
    · simp at hl
    · by_cases hb : book - cfg.segment_length < lv
      · simpa [hb] using dropLast_zero_cons xs
      · simp [hb]
  unfold postProcessCues
  rcases l with _ | ⟨c, rest⟩
  · exact key []
  · by_cases hc : c ≤ cfg.segment_length + cfg.min_clip_length
    · simpa [hc] using key rest
    · simpa [hc] using key (c :: rest)

theorem dictUpsert_mem {acc : List (ℕ × List ℚ)} {k : ℕ} {v : List ℚ}
    {p : ℕ × List ℚ} (h : p ∈ dictUpsert acc k v) : p ∈ acc ∨ p = (k, v) := by
  unfold dictUpsert at h
  split at h
  · rcases List.mem_map.mp h with ⟨q, hq, hqe⟩
    by_cases hk : q.1 = k
    · right; rw [if_pos hk] at hqe; exact hqe.symm
    · left; rw [if_neg hk] at hqe; exact hqe ▸ hq
  · rcases List.mem_append.mp h with h | h
    · exact Or.inl h
    · right; simpa using h

theorem fold_upsert_mem {β : Type} (F : β → List ℚ) (P : ℕ × List ℚ → Prop)
    (hF : ∀ i, P ((F i).length, F i)) :
    ∀ (l : List β) (acc : List (ℕ × List ℚ)), (∀ p ∈ acc, P p) →
      ∀ p ∈ l.foldl (fun acc i => dictUpsert acc (F i).length (F i)) acc, P p := by
  intro l
  induction l with
  | nil => intro acc hacc p hp; exact hacc p hp
  | cons x xs ih =>
    intro acc hacc p hp
    refine ih (dictUpsert acc (F x).length (F x)) ?_ p hp
    intro q hq
    rcases dictUpsert_mem hq with h | h
    · exact hacc q h
    · exact h ▸ hF x

/-- C5 (counterexample): for `silences = [(10, 13)]` and `k = 2` the
service does **not** return `{2 : [0, 12.75]}` — k-means cannot be fitted
with more clusters than samples (`n_samples = 1 < n_clusters = 2`
raises), the service catches the error, and the result is the empty
mapping. -/
theorem c5_counterexample :
    generate_cue_set kmeansFit {} [(10, 13)] 1000 2 = [] ∧
    (generate_cue_set kmeansFit {} [(10, 13)] 1000 2).lookup 2 ≠
      some [0, (51 : ℚ)/4] := by
  have h : generate_cue_set kmeansFit {} [(10, 13)] 1000 2 = [] := by
    norm_num [generate_cue_set, kmeansFit]
  rw [h]
  exact ⟨rfl, by simp [List.lookup]⟩

/-- C5 (amended): the post-clustering steps (sort; snap the first cue to
`0` or prepend `0`; drop an over-long last cue) make every returned cue
list start at `0` (when non-empty) and keyed by its own length, for every
k-means fit; but on the concrete scenario (`silences = [(10,13)]`,
defaults, `duration = 1000`, `k = 2`) the result is the empty mapping,
not `{2 : [0, 12.75]}`, because one sample cannot be split into two
clusters. -/
theorem c5_amended :
    (∀ (km : KMeansFn) (cfg : SmartDetectConfig) (silences : List (ℚ × ℚ))
        (book_length : ℚ) (k : ℕ),
      ∀ p ∈ generate_cue_set km cfg silences book_length k,
        p.1 = p.2.length ∧ (p.2 ≠ [] → p.2.head? = some 0)) ∧
    generate_cue_set kmeansFit {} [(10, 13)] 1000 2 = [] := by
  constructor
  · intro km cfg silences book_length k p hp
    unfold generate_cue_set at hp
    split at hp
    · exact absurd hp (by simp)
    · simp only [] at hp
      rcases hkm : km 1337 (silences.map (fun s => s.2 - s.1)) k with _ | lc <;>
        rw [hkm] at hp
      · exact absurd hp (by simp)
      · refine fold_upsert_mem
          (fun i => postProcessCues cfg book_length
            ((collectCues cfg silences lc.1 ((argsortDesc lc.2).take (i + 1))).insertionSort
              (fun a b => a ≤ b)))
          (fun q => q.1 = q.2.length ∧ (q.2 ≠ [] → q.2.head? = some 0))
          (fun i => ⟨rfl, fun hne => ?_⟩) (List.range (k - 1)) [] (by simp) p hp
        rcases postProcessCues_head cfg book_length
            ((collectCues cfg silences lc.1 ((argsortDesc lc.2).take (i + 1))).insertionSort
              (fun a b => a ≤ b)) with h | h
        · exact absurd h hne
        · exact h
  · norm_num [generate_cue_set, kmeansFit]

/-! ### C9: clustering determinism under the fixed seed -/

theorem generate_cue_set_km_congr {km₁ km₂ : KMeansFn}
    (h : ∀ d k, km₁ 1337 d k = km₂ 1337 d k) (cfg : SmartDetectConfig)
    (silences : List (ℚ × ℚ)) (book_length : ℚ) (k : ℕ) :
    generate_cue_set km₁ cfg silences book_length k =
      generate_cue_set km₂ cfg silences book_length k := by
  unfold generate_cue_set
  simp only []
  split
  · rfl
  · rw [h]

/-- C9: the clustering entry point calls the k-means fit only with the
hard-coded `random_state = 1337`, so any two fits agreeing at that seed —
in particular any two runs of the same deterministic fit — produce
identical cue-set mappings: the output is a pure function of the
silences, the config and the seed-1337 fit. -/
theorem c9_determinism (km₁ km₂ : KMeansFn) (cfg : SmartDetectConfig)
    (silences : List (ℚ × ℚ)) (book_length : ℚ)
    (h : ∀ d k, km₁ 1337 d k = km₂ 1337 d k) :
    get_clustered_cue_sets km₁ cfg silences book_length =
      get_clustered_cue_sets km₂ cfg silences book_length := by
  unfold get_clustered_cue_sets
  have hfold : ∀ (l : List ℕ) (acc : List (ℕ × List ℚ)),
      l.foldl (fun acc k =>
        dictMerge acc (generate_cue_set km₁ cfg silences book_length k)) acc =
      l.foldl (fun acc k =>
        dictMerge acc (generate_cue_set km₂ cfg silences book_length k)) acc := by
    intro l
    induction l with
    | nil => intro acc; rfl
    | cons x xs ih =>
      intro acc
      simp only [List.foldl_cons, generate_cue_set_km_congr h, ih]
  simp only []
  rw [hfold]

/-- C9 witness: two runs of the modelled deterministic fit agree. -/
theorem c9_determinism_witness :
    (∀ d k, kmeansFit 1337 d k = kmeansFit 1337 d k) ∧
    get_clustered_cue_sets kmeansFit { } [(10, 13), (20, 25)] 1000 =
      get_clustered_cue_sets kmeansFit { } [(10, 13), (20, 25)] 1000 :=
  ⟨fun _ _ => rfl,
    c9_determinism kmeansFit kmeansFit { } [(10, 13), (20, 25)] 1000 (fun _ _ => rfl)⟩

/-! ### C2: add-options window and the add-chapter route -/

/-- C2: with adjacent non-deleted anchors `A@100` (id 0), `B@200` (id 1),
`get_add_options` does return the window `[100.25, 199.75]`; but the add
route performs no window validation at all — it fails with a pydantic
`ValidationError` (HTTP 500) on the out-of-window timestamp `100.1` *and*
on the in-window timestamp `150` alike, because the `ChapterData`
construction omits the required `id` and `audio_segment_path` fields. The
chapter list is left unchanged only because the error precedes any
mutation. -/
theorem c2_add_chapter_window :
    get_add_options
        { chapters :=
            [{ id := 0, timestamp := 100, asr_title := "", current_title := "A",
               audio_segment_path := "" },
             { id := 1, timestamp := 200, asr_title := "", current_title := "B",
               audio_segment_path := "" }],
          book_duration := 1000, detected_silences := [],
          existing_cue_sources := [] } 0 =
      .ok { min_timestamp := (401 : ℚ)/4, max_timestamp := (799 : ℚ)/4,
            detected_cues := [], existing_cues := [], deleted := [] } ∧
    add_chapter_route
        { chapters :=
            [{ id := 0, timestamp := 100, asr_title := "", current_title := "A",
               audio_segment_path := "" },
             { id := 1, timestamp := 200, asr_title := "", current_title := "B",
               audio_segment_path := "" }],
          book_duration := 1000, detected_silences := [],
          existing_cue_sources := [] } ((1001 : ℚ)/10) "X" =
      .error "ValidationError: missing required fields" ∧
    add_chapter_route
        { chapters :=
            [{ id := 0, timestamp := 100, asr_title := "", current_title := "A",
               audio_segment_path := "" },
             { id := 1, timestamp := 200, asr_title := "", current_title := "B",
               audio_segment_path := "" }],
          book_duration := 1000, detected_silences := [],
          existing_cue_sources := [] } 150 "X" =
      .error "ValidationError: missing required fields" := by
  refine ⟨?_, ?_, ?_⟩
  · norm_num [get_add_options, findAfter, List.insertionSort, List.orderedInsert,
      List.filter, List.find?, List.filterMap]
  · norm_num [add_chapter_route, validateChapterData, List.find?, abs]
  · norm_num [add_chapter_route, validateChapterData, List.find?, abs]

/-! ### C1: operation round trips -/

theorem find_chapter_cons (c : ChapterData) (rest : List ChapterData) (cid : ℕ) :
    find_chapter (c :: rest) cid =
      if c.id = cid then some c else find_chapter rest cid := by
  unfold find_chapter
  by_cases h : c.id = cid
  · rw [List.find?_cons_of_pos _ (by simp [h]), if_pos h]
  · rw [List.find?_cons_of_neg _ (by simp [h]), if_neg h]

theorem updateChapter_cons (cid : ℕ) (f : ChapterData → ChapterData)
    (c : ChapterData) (rest : List ChapterData) :
    updateChapter cid f (c :: rest) =
      if c.id = cid then some (f c :: rest)
      else (updateChapter cid f rest).map (c :: ·) := rfl

theorem updateChapter_none_iff {cid : ℕ} {f : ChapterData → ChapterData} :
    ∀ {cs : List ChapterData},
      updateChapter cid f cs = none ↔ find_chapter cs cid = none := by
  intro cs
  induction cs with
  | nil => simp [updateChapter, find_chapter]
  | cons c rest ih =>
    rw [updateChapter_cons, find_chapter_cons]
    by_cases h : c.id = cid
    · simp [h]
    · simp [h, ih]

theorem updateChapter_comp {f g : ChapterData → ChapterData}
    (hf : ∀ x, (f x).id = x.id) (cid : ℕ) :
    ∀ cs : List ChapterData,
      (updateChapter cid f cs).bind (updateChapter cid g) =
        updateChapter cid (fun c => g (f c)) cs := by
  intro cs
  induction cs with
  | nil => rfl
  | cons c rest ih =>
    rw [updateChapter_cons, updateChapter_cons]
    by_cases h : c.id = cid
    · rw [if_pos h, if_pos h, Option.some_bind, updateChapter_cons,
        if_pos (by rw [hf c]; exact h)]
    · rw [if_neg h, if_neg h]
      cases hr : updateChapter cid f rest with
      | none =>
        have hg : updateChapter cid (fun c => g (f c)) rest = none := by
          rw [← ih, hr]; rfl
        rw [hg]
        simp
      | some cs' =>
        have ih' : updateChapter cid g cs' = updateChapter cid (fun c => g (f c)) rest := by
          rw [← ih, hr, Option.some_bind]
        simp only [Option.map_some', Option.some_bind, updateChapter_cons, if_neg h, ih']

theorem updateChapter_congr_found {cid : ℕ} {f g : ChapterData → ChapterData} :
    ∀ {cs : List ChapterData} {c₀ : ChapterData},
      find_chapter cs cid = some c₀ → f c₀ = g c₀ →
      updateChapter cid f cs = updateChapter cid g cs := by
  intro cs
  induction cs with
  | nil => intro c₀ h; simp [find_chapter] at h
  | cons c rest ih =>
    intro c₀ hfind hfg
    rw [find_chapter_cons] at hfind
    rw [updateChapter_cons, updateChapter_cons]
    by_cases h : c.id = cid
    · rw [if_pos h] at hfind
      obtain rfl : c = c₀ := by injection hfind
      rw [if_pos h, if_pos h, hfg]
    · rw [if_neg h] at hfind
      rw [if_neg h, if_neg h, ih hfind hfg]

theorem updateChapter_self {cid : ℕ} {f : ChapterData → ChapterData} :
    ∀ {cs : List ChapterData} {c₀ : ChapterData},
      find_chapter cs cid = some c₀ → f c₀ = c₀ →
      updateChapter cid f cs = some cs := by
  intro cs
  induction cs with
  | nil => intro c₀ h; simp [find_chapter] at h
  | cons c rest ih =>
    intro c₀ hfind hf
    rw [find_chapter_cons] at hfind
    rw [updateChapter_cons]
    by_cases h : c.id = cid
    · rw [if_pos h] at hfind
      obtain rfl : c = c₀ := by injection hfind
      rw [if_pos h, hf]
    · rw [if_neg h] at hfind
      rw [if_neg h, ih hfind hf]
      rfl

theorem find_chapter_updateChapter {cid : ℕ} {f : ChapterData → ChapterData}
    (hf : ∀ x, (f x).id = x.id) :
    ∀ {cs cs' : List ChapterData} {c₀ : ChapterData},
      find_chapter cs cid = some c₀ → updateChapter cid f cs = some cs' →
      find_chapter cs' cid = some (f c₀) := by
  intro cs
  induction cs with
  | nil => intro cs' c₀ h; simp [find_chapter] at h
  | cons c rest ih =>
    intro cs' c₀ hfind hupd
    rw [find_chapter_cons] at hfind
    rw [updateChapter_cons] at hupd
    by_cases h : c.id = cid
    · rw [if_pos h] at hfind hupd
      obtain rfl : c = c₀ := by injection hfind
      obtain rfl : f c :: rest = cs' := by injection hupd
      rw [find_chapter_cons, if_pos (by rw [hf c]; exact h)]
    · rw [if_neg h] at hfind hupd
      cases hr : updateChapter cid f rest with
      | none => rw [hr] at hupd; exact absurd hupd (by simp)
      | some cs'' =>
        rw [hr] at hupd
        obtain rfl : c :: cs'' = cs' := by
          simpa using hupd
        rw [find_chapter_cons, if_neg h]
        exact ih hfind hr

theorem find_chapter_insertChapter_isSome (ch : ChapterData) :
    ∀ cs : List ChapterData, (find_chapter (insertChapter ch cs) ch.id).isSome := by
  intro cs
  induction cs with
  | nil => simp [insertChapter, find_chapter_cons]
  | cons c rest ih =>
    simp only [insertChapter]
    split
    · simp [find_chapter_cons]
    · rw [find_chapter_cons]
      by_cases h : c.id = ch.id
      · simp [h]
      · rw [if_neg h]
        exact ih

theorem removeFirstById_insertChapter (ch : ChapterData) :
    ∀ cs : List ChapterData, (∀ c ∈ cs, c.id ≠ ch.id) →
      removeFirstById ch.id (insertChapter ch cs) = cs := by
  intro cs
  induction cs with
  | nil => intro _; simp [insertChapter, removeFirstById]
  | cons c rest ih =>
    intro hfresh
    simp only [insertChapter]
    split
    · simp [removeFirstById]
    · have hc : c.id ≠ ch.id := hfresh c (List.mem_cons_self _ _)
      rw [removeFirstById, if_neg hc,
        ih (fun x hx => hfresh x (List.mem_cons_of_mem _ hx))]

theorem apply_add_eq (ch : ChapterData) (cs : List ChapterData) :
    ChapterOperation.apply (.add ch) cs = some (.add ch, insertChapter ch cs) := by
  rw [ChapterOperation.apply]

theorem apply_delete_eq (cid : ℕ) (cs : List ChapterData) :
    ChapterOperation.apply (.delete cid) cs =
      (updateChapter cid (fun c => { c with deleted := true }) cs).map
        (.delete cid, ·) := by
  rw [ChapterOperation.apply]

theorem apply_aiCleanup_eq (cid : ℕ) (old newT : String) (sel : Bool)
    (cs : List ChapterData) :
    ChapterOperation.apply (.aiCleanup cid old newT sel) cs =
      (updateChapter cid
          (fun x => { x with current_title := newT, selectedInternal := sel }) cs).map
        (.aiCleanup cid old newT sel, ·) := by
  rw [ChapterOperation.apply]

theorem apply_batch_eq (ops : List ChapterOperation) (cs : List ChapterData) :
    ChapterOperation.apply (.batch ops) cs =
      (ChapterOperation.applyList ops cs).map (fun p => (.batch p.1, p.2)) := by
  rw [ChapterOperation.apply]

theorem roundtrip_add (ch : ChapterData) (cs : List ChapterData)
    (hfresh : ∀ c ∈ cs, c.id ≠ ch.id) : roundtrip (.add ch) cs = some cs := by
  unfold roundtrip
  rw [apply_add_eq, Option.some_bind]
  show ChapterOperation.undo (.add ch) (insertChapter ch cs) = some cs
  rw [ChapterOperation.undo]
  rcases hfind : find_chapter (insertChapter ch cs) ch.id with _ | c
  · have := find_chapter_insertChapter_isSome ch cs
    rw [hfind] at this
    exact absurd this (by simp)
  · rw [removeFirstById_insertChapter ch cs hfresh]

theorem roundtrip_delete (cid : ℕ) (cs : List ChapterData) :
    roundtrip (.delete cid) cs =
      updateChapter cid (fun c => { c with deleted := false }) cs := by
  unfold roundtrip
  rw [apply_delete_eq]
  cases h : updateChapter cid (fun c => { c with deleted := true }) cs with
  | none =>
    rw [Option.map_none', Option.none_bind,
      updateChapter_none_iff.mpr (updateChapter_none_iff.mp h)]
  | some cs₁ =>
    rw [Option.map_some', Option.some_bind]
    show ChapterOperation.undo (.delete cid) cs₁ =
      updateChapter cid (fun c => { c with deleted := false }) cs
    rw [ChapterOperation.undo]
    have hcomp := @updateChapter_comp
      (fun c => { c with deleted := true })
      (fun c => { c with deleted := false }) (fun x => rfl) cid cs
    rw [h, Option.some_bind] at hcomp
    exact hcomp

theorem roundtrip_editTitle (cid : ℕ) (old newT : String) (cs : List ChapterData) :
    roundtrip (.editTitle cid old newT) cs =
      if (find_chapter cs cid).isSome then some cs else none := by
  unfold roundtrip
  rw [ChapterOperation.apply]
  rcases hfind : find_chapter cs cid with _ | c₀
  · simp
  · rw [Option.isSome_some, if_pos rfl]
    cases h : updateChapter cid (fun x => { x with current_title := newT }) cs with
    | none =>
      rw [updateChapter_none_iff, hfind] at h
      exact absurd h (by simp)
    | some cs₁ =>
      simp only [Option.map_some', Option.some_bind]
      show ChapterOperation.undo (.editTitle cid c₀.current_title newT) cs₁ = some cs
      rw [ChapterOperation.undo]
      have hcomp := @updateChapter_comp
        (fun x => { x with current_title := newT })
        (fun x => { x with current_title := c₀.current_title }) (fun x => rfl) cid cs
      rw [h, Option.some_bind] at hcomp
      rw [hcomp]
      exact updateChapter_self hfind (by cases c₀; rfl)

theorem roundtrip_restore (cid : ℕ) (old : String) (newT : Option String)
    (cs : List ChapterData) :
    roundtrip (.restore cid old newT) cs =
      updateChapter cid
        (fun c => { c with selectedInternal := true, deleted := true }) cs := by
  unfold roundtrip
  rw [ChapterOperation.apply]
  rcases hfind : find_chapter cs cid with _ | c₀
  · simp [updateChapter_none_iff.mpr hfind]
  · simp only []
    cases h : updateChapter cid
        (fun x =>
          { x with
            selectedInternal := true
            deleted := false
            current_title := if strTruthy newT then newT.getD "" else x.current_title })
        cs with
    | none =>
      rw [updateChapter_none_iff, hfind] at h
      exact absurd h (by simp)
    | some cs₁ =>
      simp only [Option.map_some', Option.some_bind]
      show ChapterOperation.undo
          (.restore cid (if strTruthy newT then c₀.current_title else old) newT) cs₁ =
        updateChapter cid
          (fun c => { c with selectedInternal := true, deleted := true }) cs
      rw [ChapterOperation.undo]
      have hcomp := @updateChapter_comp
        (fun x =>
          { x with
            selectedInternal := true
            deleted := false
            current_title := if strTruthy newT then newT.getD "" else x.current_title })
        (fun x =>
          { x with
            current_title :=
              if strTruthy newT then (if strTruthy newT then c₀.current_title else old)
              else x.current_title
            deleted := true })
        (fun x => rfl) cid cs
      rw [h, Option.some_bind] at hcomp
      rw [hcomp]
      apply updateChapter_congr_found hfind
      by_cases hT : strTruthy newT = true
      · cases c₀; simp [hT]
      · simp only [Bool.not_eq_true] at hT
        cases c₀; simp [hT]

theorem roundtrip_aiCleanup (cid : ℕ) (old newT : String) (sel : Bool)
    (cs : List ChapterData) :
    roundtrip (.aiCleanup cid old newT sel) cs =
      updateChapter cid
        (fun c => { c with current_title := old, selectedInternal := true }) cs := by
  unfold roundtrip
  rw [apply_aiCleanup_eq]
  cases h : updateChapter cid
      (fun x => { x with current_title := newT, selectedInternal := sel }) cs with
  | none =>
    rw [Option.map_none', Option.none_bind,
      updateChapter_none_iff.mpr (updateChapter_none_iff.mp h)]
  | some cs₁ =>
    rw [Option.map_some', Option.some_bind]
    show ChapterOperation.undo (.aiCleanup cid old newT sel) cs₁ =
      updateChapter cid
        (fun c => { c with current_title := old, selectedInternal := true }) cs
    rw [ChapterOperation.undo]
    have hcomp := @updateChapter_comp
      (fun x => { x with current_title := newT, selectedInternal := sel })
      (fun x => { x with current_title := old, selectedInternal := true })
      (fun x => rfl) cid cs
    rw [h, Option.some_bind] at hcomp
    exact hcomp

theorem applyList_editTitle_undo :
    ∀ (ops : List ChapterOperation) (cs : List ChapterData)
      (ops' : List ChapterOperation) (cs₂ : List ChapterData),
      (∀ op ∈ ops, ∃ cid old newT, op = ChapterOperation.editTitle cid old newT) →
      ChapterOperation.applyList ops cs = some (ops', cs₂) →
      ChapterOperation.undoListRev ops' cs₂ = some cs := by
  intro ops
  induction ops with
  | nil =>
    intro cs ops' cs₂ _ h
    rw [ChapterOperation.applyList] at h
    obtain ⟨rfl, rfl⟩ : ops' = [] ∧ cs₂ = cs := by
      constructor <;> [injection h with h'; injection h with h'] <;>
        [exact (congrArg Prod.fst h').symm; exact (congrArg Prod.snd h').symm]
    rw [ChapterOperation.undoListRev]
  | cons op ops ih =>
    intro cs ops' cs₂ hshape h
    obtain ⟨cid, old, newT, rfl⟩ := hshape op (List.mem_cons_self _ _)
    rw [ChapterOperation.applyList, ChapterOperation.apply] at h
    rcases hfind : find_chapter cs cid with _ | c₀
    · rw [hfind] at h; exact absurd h (by simp)
    · rw [hfind] at h
      simp only [] at h
      cases hupd : updateChapter cid (fun x => { x with current_title := newT }) cs with
      | none => rw [hupd] at h; exact absurd h (by simp)
      | some cs₁ =>
        rw [hupd, Option.map_some', Option.some_bind] at h
        rcases hl : ChapterOperation.applyList ops cs₁ with _ | q
        · rw [hl] at h; exact absurd h (by simp)
        · rw [hl, Option.map_some'] at h
          injection h with h'
          rw [Prod.ext_iff] at h'
          obtain ⟨h1, h2⟩ := h'
          simp only [] at h1 h2
          subst h1
          subst h2
          rw [ChapterOperation.undoListRev,
            ih cs₁ q.1 q.2 (fun o ho => hshape o (List.mem_cons_of_mem _ ho)) (by rw [hl]),
            Option.some_bind]
          show ChapterOperation.undo (.editTitle cid c₀.current_title newT) cs₁ = some cs
          rw [ChapterOperation.undo]
          have hcomp := @updateChapter_comp
            (fun x => { x with current_title := newT })
            (fun x => { x with current_title := c₀.current_title })
            (fun x => rfl) cid cs
          rw [hupd, Option.some_bind] at hcomp
          rw [hcomp]
          exact updateChapter_self hfind (by cases c₀; rfl)

/-- C1 (counterexample): applying then undoing an `AICleanupOperation` on
a chapter whose internal selected flag is `false` yields a chapter with
the flag forced to `true` — the prior chapter state is not restored. -/
theorem c1_counterexample :
    roundtrip (.aiCleanup 0 "t" "u" true)
        [{ id := 0, timestamp := 0, asr_title := "t", current_title := "t",
           audio_segment_path := "", selectedInternal := false }] ≠
      some [{ id := 0, timestamp := 0, asr_title := "t", current_title := "t",
              audio_segment_path := "", selectedInternal := false }] := by
  rw [roundtrip_aiCleanup]
  simp [updateChapter]

/-- C1 (amended): `apply; undo` restores the exact prior chapter list for
`AddChapter` with a fresh id, for `EditTitle`, and for batches of
`EditTitle` operations; `DeleteChapter`'s round trip forces the deleted
flag of the affected chapter to `false` (exact only when it was not
already deleted); `RestoreChapter`'s round trip forces the internal
selected flag to `true` and the deleted flag to `true`; `AICleanup`'s
round trip forces the internal selected flag to `true` and the title to
the operation's stored `old_title`. -/
theorem c1_amended (cs : List ChapterData) :
    (∀ ch : ChapterData, (∀ c ∈ cs, c.id ≠ ch.id) →
      roundtrip (.add ch) cs = some cs) ∧
    (∀ cid, roundtrip (.delete cid) cs =
      updateChapter cid (fun c => { c with deleted := false }) cs) ∧
    (∀ cid c₀, find_chapter cs cid = some c₀ → c₀.deleted = false →
      roundtrip (.delete cid) cs = some cs) ∧
    (∀ cid old newT, roundtrip (.editTitle cid old newT) cs =
      if (find_chapter cs cid).isSome then some cs else none) ∧
    (∀ cid old newT, roundtrip (.restore cid old newT) cs =
      updateChapter cid
        (fun c => { c with selectedInternal := true, deleted := true }) cs) ∧
    (∀ cid old newT sel, roundtrip (.aiCleanup cid old newT sel) cs =
      updateChapter cid
        (fun c => { c with current_title := old, selectedInternal := true }) cs) ∧
    (∀ ops, (∀ op ∈ ops, ∃ cid old newT, op = ChapterOperation.editTitle cid old newT) →
      ∀ res, roundtrip (.batch ops) cs = some res → res = cs) := by
  refine ⟨fun ch => roundtrip_add ch cs, fun cid => roundtrip_delete cid cs, ?_,
    fun cid old newT => roundtrip_editTitle cid old newT cs,
    fun cid old newT => roundtrip_restore cid old newT cs,
    fun cid old newT sel => roundtrip_aiCleanup cid old newT sel cs, ?_⟩
  · intro cid c₀ hfind hdel
    rw [roundtrip_delete]
    exact updateChapter_self hfind (by cases c₀; simp_all)
  · intro ops hshape res h
    unfold roundtrip at h
    rw [apply_batch_eq] at h
    rcases hl : ChapterOperation.applyList ops cs with _ | q
    · rw [hl] at h; exact absurd h (by simp)
    · rw [hl] at h
      simp only [Option.map_some', Option.some_bind] at h
      have hu : ChapterOperation.undo (.batch q.1) q.2 = some res := h
      rw [ChapterOperation.undo,
        applyList_editTitle_undo ops cs q.1 q.2 hshape (by rw [hl])] at hu
      exact (Option.some_injective _ hu).symm

/-- C1 witness: the round trip of a fresh-id `AddChapter` on the empty
list restores it. -/
theorem c1_amended_witness :
    (∀ c ∈ ([] : List ChapterData), c.id ≠
      ({ id := 37, timestamp := 5, asr_title := "", current_title := "x",
         audio_segment_path := "" } : ChapterData).id) ∧
    roundtrip
        (.add { id := 37, timestamp := 5, asr_title := "", current_title := "x",
                audio_segment_path := "" }) ([] : List ChapterData) =
      some ([] : List ChapterData) :=
  ⟨by simp, (c1_amended []).1 _ (by simp)⟩

/-! ### C7: aligner identity case -/

/-- C7: in the identity case (`source_chapters = [(0,"A"),(600,"B")]`,
cues at the same times with 3 s silences, equal durations), the aligner
returns exactly the cue times, `is_guess = false` for both chapters, and
confidence `≥ 0.9` (it equals `73/80 = 0.9125`). Stated for every
embedding `pen` of `x ** 1.5` (nonnegative, `pen 0 = 0`) and every
embedding `ex` of `exp` (`ex 0 = 1`). -/
theorem c7_identity (pen ex : ℚ → ℚ) (hpen0 : pen 0 = 0)
    (hpen : ∀ x, 0 ≤ pen x) (hex : ex 0 = 1) :
    ((align pen ex [⟨0, "A"⟩, ⟨600, "B"⟩] [⟨0, 3⟩, ⟨600, 3⟩] 1200 1200).1.map
        (fun a => a.timestamp) = [0, 600]) ∧
    ∀ a ∈ (align pen ex [⟨0, "A"⟩, ⟨600, "B"⟩] [⟨0, 3⟩, ⟨600, 3⟩] 1200 1200).1,
      a.is_guess = false ∧ 9/10 ≤ a.confidence := by
  have hlt : -(45/2 : ℚ) < pen 300 - 45/2 + 1000 := by linarith [hpen 300]
  norm_num [align, estimateTransform, argmaxFirst, matchChaptersToCues, tracebackGo,
    dpCell, dpRowFun, dpCellRow, matchCost, dpLt, dpAdd, buildResults, calcConfidence,
    maxDrift, List.filter, List.filterMap, hpen0, hex, hlt, List.replicate, List.set,
    List.range_succ]

/-- C7 witness: the hypotheses are satisfied by the constant functions
`pen = 0`, `ex = 1`, and the identity-case timestamps evaluate to the
cue times. -/
theorem c7_identity_witness :
    ((fun _ : ℚ => (0 : ℚ)) 0 = 0 ∧ (∀ x : ℚ, 0 ≤ (fun _ : ℚ => (0 : ℚ)) x) ∧
      (fun _ : ℚ => (1 : ℚ)) 0 = 1) ∧
    (align (fun _ => 0) (fun _ => 1) [⟨0, "A"⟩, ⟨600, "B"⟩]
        [⟨0, 3⟩, ⟨600, 3⟩] 1200 1200).1.map (fun a => a.timestamp) = [0, 600] :=
  ⟨⟨rfl, fun _ => le_refl 0, rfl⟩,
    (c7_identity (fun _ => 0) (fun _ => 1) rfl (fun _ => le_refl 0) rfl).1⟩

/-! ### C4: aligner drift bound and guess confidences -/

theorem dpCellRow_col_lt {pen : ℚ → ℚ} {e c s : List ℚ}
    {prev : ℕ → DpCell} {irow : ℕ} :
    ∀ {j : ℕ}, j < irow → (dpCellRow pen e c s prev irow j).1 = none := by
  intro j hj
  cases j with
  | zero => rfl
  | succ j' => rw [dpCellRow, if_pos hj]

theorem dpChoice_le (c1 left up : DpCell) (en : Option (ℕ × ℕ × Option ℕ)) (a : ℚ)
    (hleft : left.1 = some a) :
    ∃ b, ((if dpLt (dpAdd up.1 50) (if dpLt left.1 c1.1 then left else c1).1
        then (dpAdd up.1 50, en) else (if dpLt left.1 c1.1 then left else c1)).1 =
      some b) ∧ b ≤ a := by
  have hc2v : ∃ v, (if dpLt left.1 c1.1 then left else c1).1 = some v ∧ v ≤ a := by
    split
    · exact ⟨a, hleft, le_refl a⟩
    · rename_i hnlt
      rw [hleft] at hnlt
      cases hc1 : c1.1 with
      | none =>
        rw [hc1] at hnlt
        exact absurd (rfl : dpLt (some a) none = true) hnlt
      | some v =>
        rw [hc1] at hnlt
        have hva : ¬ (a < v) := by simpa [dpLt] using hnlt
        exact ⟨v, rfl, not_lt.mp hva⟩
  obtain ⟨v, hv, hva⟩ := hc2v
  cases hu : up.1 with
  | none =>
    rw [show dpAdd none 50 = (none : Option ℚ) from rfl,
      if_neg (by rw [hv]; simp [dpLt])]
    exact ⟨v, hv, hva⟩
  | some u =>
    rw [show dpAdd (some u) 50 = some (u + 50) from rfl]
    by_cases hlt : u + 50 < v
    · rw [if_pos (by rw [hv]; simp [dpLt, hlt])]
      exact ⟨u + 50, rfl, le_trans (le_of_lt hlt) hva⟩
    · rw [if_neg (by rw [hv]; simp [dpLt, hlt])]
      exact ⟨v, hv, hva⟩

theorem dpRow_mono (pen : ℚ → ℚ) (e c s : List ℚ) (i j : ℕ) :
    ∀ a, (dpCell pen e c s i j).1 = some a →
      ∃ b, (dpCell pen e c s i (j + 1)).1 = some b ∧ b ≤ a := by
  intro a ha
  cases i with
  | zero =>
    refine ⟨0, rfl, ?_⟩
    have h0 : some (0 : ℚ) = some a := ha
    injection h0 with h0
    exact le_of_eq h0
  | succ i' =>
    show ∃ b,
      (dpCellRow pen e c s (dpRowFun pen e c s i') (i' + 1) (j + 1)).1 = some b ∧ b ≤ a
    rw [dpCellRow]
    by_cases hj : j + 1 < i' + 1
    · have hnone : (dpCellRow pen e c s (dpRowFun pen e c s i') (i' + 1) j).1 = none :=
        dpCellRow_col_lt (by omega)
      have ha' : (dpCell pen e c s (i' + 1) j).1 = some a := ha
      rw [show (dpCell pen e c s (i' + 1) j).1 =
        (dpCellRow pen e c s (dpRowFun pen e c s i') (i' + 1) j).1 from rfl, hnone] at ha'
      exact absurd ha' (by simp)
    · rw [if_neg hj]
      simp only []
      exact dpChoice_le _ _ _ _ a ha

theorem dpCell_entry_bound (pen : ℚ → ℚ) (e c s : List ℚ) (i : ℕ) :
    ∀ j pi pj m, (dpCell pen e c s (i + 1) j).2 = some (pi, pj, some m) →
      matchCost pen (e.getD i 0) (c.getD m 0) (s.getD m 0) ≤ 50 := by
  intro j
  induction j with
  | zero =>
    intro pi pj m h
    exact absurd h (by simp [dpCell, dpRowFun, dpCellRow])
  | succ j ih =>
    intro pi pj m h
    have h' : (dpCellRow pen e c s (dpRowFun pen e c s i) (i + 1) (j + 1)).2 =
        some (pi, pj, some m) := h
    rw [dpCellRow] at h'
    by_cases hj : j + 1 < i + 1
    · rw [if_pos hj] at h'
      exact absurd h' (by simp)
    · rw [if_neg hj] at h'
      simp only [] at h'
      cases hprev : (dpRowFun pen e c s i j).1 with
      | none =>
        rw [hprev] at h'
        simp only [Option.isSome_none, Bool.false_eq_true, if_false] at h'
        split at h'
        · split at h'
          · exact absurd h' (by simp)
          · exact ih pi pj m h'
        · split at h'
          · exact absurd h' (by simp)
          · exact absurd h' (by simp)
      | some p =>
        rw [hprev] at h'
        simp only [Option.isSome_some, if_true] at h'
        rw [show dpAdd (some p)
            (matchCost pen (e.getD (i + 1 - 1) 0) (c.getD j 0) (s.getD j 0)) =
          some (p + matchCost pen (e.getD (i + 1 - 1) 0) (c.getD j 0) (s.getD j 0))
          from rfl] at h'
        split at h'
        · split at h'
          · exact absurd h' (by simp)
          · exact ih pi pj m h'
        · split at h'
          · exact absurd h' (by simp)
          · rename_i hnlt hnm
            simp only [Option.some.injEq, Prod.mk.injEq] at h'
            obtain ⟨-, -, hjm⟩ := h'
            subst hjm
            obtain ⟨b, hb, hbp⟩ := dpRow_mono pen e c s i j p hprev
            have hb' : (dpRowFun pen e c s i (j + 1)).1 = some b := hb
            simp only [] at hnm
            rw [hb'] at hnm
            rw [show dpAdd (some b) 50 = some (b + 50) from rfl] at hnm
            simp only [dpLt, decide_eq_true_eq] at hnm
            have hle : p + matchCost pen (e.getD (i + 1 - 1) 0) (c.getD j 0) (s.getD j 0) ≤
                b + 50 := not_lt.mp hnm
            have : matchCost pen (e.getD (i + 1 - 1) 0) (c.getD j 0) (s.getD j 0) ≤ 50 := by
              linarith
            simpa using this

theorem getD_set_cases :
    ∀ {ms : List (Option ℕ)} {i k : ℕ} {v : Option ℕ} {m : ℕ},
      (ms.set i v).getD k none = some m →
      (k = i ∧ v = some m) ∨ ms.getD k none = some m := by
  intro ms
  induction ms with
  | nil => intro i k v m h; simp [List.getD] at h
  | cons x xs ih =>
    intro i k v m h
    cases i with
    | zero =>
      cases k with
      | zero =>
        refine Or.inl ⟨rfl, ?_⟩
        simpa [List.getD] using h
      | succ k' => exact Or.inr (by simpa [List.getD] using h)
    | succ i' =>
      cases k with
      | zero => exact Or.inr (by simpa [List.getD] using h)
      | succ k' =>
        rcases ih (by simpa [List.getD] using h) with ⟨rfl, hv⟩ | hold
        · exact Or.inl ⟨rfl, hv⟩
        · exact Or.inr (by simpa [List.getD] using hold)

theorem getD_replicate_none :
    ∀ (n k : ℕ), (List.replicate n (none : Option ℕ)).getD k none = none := by
  intro n
  induction n with
  | zero => intro k; simp [List.getD]
  | succ n ih =>
    intro k
    cases k with
    | zero => simp [List.replicate, List.getD]
    | succ k' =>
      rw [List.replicate]
      exact ih k'

theorem tracebackGo_bound (pen : ℚ → ℚ) (e c s : List ℚ) :
    ∀ (fuel i j : ℕ) (ms : List (Option ℕ)),
      (∀ k m, ms.getD k none = some m →
        matchCost pen (e.getD k 0) (c.getD m 0) (s.getD m 0) ≤ 50) →
      ∀ k m, (tracebackGo pen e c s fuel i j ms).getD k none = some m →
        matchCost pen (e.getD k 0) (c.getD m 0) (s.getD m 0) ≤ 50 := by
  intro fuel
  induction fuel with
  | zero =>
    intro i j ms hms k m h
    rw [tracebackGo] at h
    exact hms k m h
  | succ fuel ih =>
    intro i j ms hms k m h
    cases i with
    | zero =>
      rw [tracebackGo] at h
      exact hms k m h
    | succ i' =>
      rw [tracebackGo] at h
      rcases hent : (dpCell pen e c s (i' + 1) j).2 with _ | ⟨pi, pj, mc⟩
      · rw [hent] at h
        exact hms k m h
      · rw [hent] at h
        simp only [] at h
        refine ih pi pj _ ?_ k m h
        intro k' m' hk'
        by_cases hcond : pi = i' ∧ mc.isSome = true
        · rw [if_pos hcond] at hk'
          rcases getD_set_cases hk' with ⟨hki, hv⟩ | hold
          · obtain ⟨hpi, hmc⟩ := hcond
            rw [hv, hpi] at hent
            rw [hki]
            exact dpCell_entry_bound pen e c s i' j i' pj m' hent
          · exact hms k' m' hold
        · rw [if_neg hcond] at hk'
          exact hms k' m' hk'

theorem getD_map_eq {α β : Type} (f : α → β) (dflt : α) :
    ∀ (l : List α) (i : ℕ), (l.map f).getD i (f dflt) = f (l.getD i dflt) := by
  intro l
  induction l with
  | nil => intro i; simp [List.getD]
  | cons a l ih =>
    intro i
    cases i with
    | zero => simp [List.getD]
    | succ i' => exact ih i'

theorem getD_map_lt {α β : Type} (f : α → β) (d : β) (dPrime : α) :
    ∀ {l : List α} {i : ℕ}, i < l.length →
      (l.map f).getD i d = f (l.getD i dPrime) := by
  intro l
  induction l with
  | nil => intro i h; simp at h
  | cons a l ih =>
    intro i h
    cases i with
    | zero => simp [List.getD]
    | succ i' =>
      have h' : i' < l.length := by simpa using h
      simpa [List.getD] using ih h'

theorem buildResults_getD (ex : ℚ → ℚ) (srcs : List SourceChapter) (cues : List Cue)
    (ms : List (Option ℕ)) (expTs : List ℚ) (i : ℕ) (hi : i < srcs.length) :
    (buildResults ex srcs cues ms expTs).getD i default =
      (match ms.getD i none with
      | some mi =>
        { title := (srcs.getD i default).title
          timestamp := (cues.getD mi default).time
          confidence := calcConfidence ex |expTs.getD i 0 - (cues.getD mi default).time|
            (cues.getD mi default).silence_duration
          is_guess := false
          matched_silence := (cues.getD mi default).silence_duration }
      | none =>
        { title := (srcs.getD i default).title
          timestamp := max 0 (expTs.getD i 0)
          confidence := 3/10
          is_guess := true
          matched_silence := 0 } : AlignResult) := by
  unfold buildResults
  rw [getD_map_lt _ _ 0 (by simpa using hi)]
  have hr : (List.range srcs.length).getD i 0 = i := by
    rw [show (List.range srcs.length).getD i 0 =
        ((List.range srcs.length).get? i).getD 0 from rfl,
      List.get?_eq_get (by simpa using hi)]
    simp [List.getElem_range]
  rw [hr]

theorem matchCost_drift (pen : ℚ → ℚ) (hpen : ∀ x, 0 ≤ pen x) (e t s : ℚ)
    (h : matchCost pen e t s ≤ 50) : |e - t| ≤ maxDrift := by
  by_contra hgt
  push_neg at hgt
  rw [matchCost] at h
  rw [if_pos hgt] at h
  have h1 := hpen (|e - t| / 2)
  have h2 : min (s * (15/2)) 25 ≤ 25 := min_le_right _ _
  linarith

theorem align_main_eq (pen ex : ℚ → ℚ) (srcs : List SourceChapter) (cues : List Cue)
    (tds tda : ℚ) (hse : srcs.isEmpty = false) (hce : cues.isEmpty = false) :
    align pen ex srcs cues tds tda =
      (buildResults ex srcs cues
        (matchChaptersToCues pen
          ((srcs.map (fun sc => sc.time)).map
            (fun t => t * (estimateTransform (srcs.map (fun sc => sc.time)) cues tds tda).1
              + (estimateTransform (srcs.map (fun sc => sc.time)) cues tds tda).2))
          (cues.map (fun cu => cu.time)) (cues.map (fun cu => cu.silence_duration)))
        ((srcs.map (fun sc => sc.time)).map
          (fun t => t * (estimateTransform (srcs.map (fun sc => sc.time)) cues tds tda).1
            + (estimateTransform (srcs.map (fun sc => sc.time)) cues tds tda).2)),
      estimateTransform (srcs.map (fun sc => sc.time)) cues tds tda) := by
  rw [align, if_neg (by rw [hse]; simp), if_neg (by rw [hce]; simp)]

/-- C4: for every input with non-empty source chapters and positive
durations, every non-guess result's timestamp is within
`max_drift = 120 s` of `scale · source_time + offset` for the estimated
transform returned by `align`, and every guess result has confidence
exactly `0.3`; in the empty-cues fallback every result is a guess with
confidence exactly `0.2`. Stated for every nonnegative embedding `pen`
of `x ** 1.5`. -/
theorem c4_aligner (pen ex : ℚ → ℚ) (hpen : ∀ x, 0 ≤ pen x)
    (source_chapters : List SourceChapter) (detected_cues : List Cue) (tds tda : ℚ)
    (hsrc : source_chapters ≠ []) (_htds : 0 < tds) (_htda : 0 < tda) :
    (detected_cues ≠ [] →
      ∀ i, i < source_chapters.length →
        (((align pen ex source_chapters detected_cues tds tda).1.getD i
            default).is_guess = false →
          |((align pen ex source_chapters detected_cues tds tda).1.getD i
              default).timestamp -
            ((source_chapters.getD i default).time *
                (align pen ex source_chapters detected_cues tds tda).2.1 +
              (align pen ex source_chapters detected_cues tds tda).2.2)| ≤ maxDrift) ∧
        (((align pen ex source_chapters detected_cues tds tda).1.getD i
            default).is_guess = true →
          ((align pen ex source_chapters detected_cues tds tda).1.getD i
            default).confidence = 3/10)) ∧
    (detected_cues = [] →
      ∀ a ∈ (align pen ex source_chapters detected_cues tds tda).1,
        a.is_guess = true ∧ a.confidence = 1/5) := by
  constructor
  · intro hcues i hi
    have hse : source_chapters.isEmpty = false := by
      simpa [List.isEmpty_iff] using hsrc
    have hce : detected_cues.isEmpty = false := by
      simpa [List.isEmpty_iff] using hcues
    rw [align_main_eq pen ex source_chapters detected_cues tds tda hse hce]
    simp only []
    set so := estimateTransform (source_chapters.map (fun sc => sc.time))
      detected_cues tds tda with hso
    set expTs := (source_chapters.map (fun sc => sc.time)).map
      (fun t => t * so.1 + so.2) with hexpT
    set cueTs := detected_cues.map (fun cu => cu.time) with hcueT
    set cueSs := detected_cues.map (fun cu => cu.silence_duration) with hcueS
    set ms := matchChaptersToCues pen expTs cueTs cueSs with hmsdef
    rw [buildResults_getD ex source_chapters detected_cues ms expTs i hi]
    rcases hmi : ms.getD i none with _ | mi
    · exact ⟨fun hfalse => by simp at hfalse, fun _ => rfl⟩
    · have hb : matchCost pen (expTs.getD i 0) (cueTs.getD mi 0) (cueSs.getD mi 0) ≤ 50 := by
        rw [hmsdef, matchChaptersToCues] at hmi
        refine tracebackGo_bound pen expTs cueTs cueSs (expTs.length + 1)
          expTs.length cueTs.length (List.replicate expTs.length none) ?_ i mi hmi
        intro k m hk
        rw [getD_replicate_none] at hk
        exact absurd hk (by simp)
      have hexp_eq : expTs.getD i 0 =
          (source_chapters.getD i default).time * so.1 + so.2 := by
        rw [hexpT, getD_map_lt (fun t => t * so.1 + so.2) 0 0 (by simpa using hi)]
        have hst : (source_chapters.map (fun sc => sc.time)).getD i 0 =
            (source_chapters.getD i default).time :=
          getD_map_eq (fun sc => sc.time) default source_chapters i
        rw [hst]
      have hct_eq : cueTs.getD mi 0 = (detected_cues.getD mi default).time := by
        rw [hcueT]
        exact getD_map_eq (fun cu => cu.time) default detected_cues mi
      have hcs_eq : cueSs.getD mi 0 =
          (detected_cues.getD mi default).silence_duration := by
        rw [hcueS]
        exact getD_map_eq (fun cu => cu.silence_duration) default detected_cues mi
      rw [hexp_eq, hct_eq, hcs_eq] at hb
      have hd := matchCost_drift pen hpen _ _ _ hb
      rw [abs_sub_comm] at hd
      exact ⟨fun _ => hd, fun hg => by simp at hg⟩
  · intro hcues
    subst hcues
    intro a ha
    have hse : source_chapters.isEmpty = false := by
      simpa [List.isEmpty_iff] using hsrc
    rw [align, if_neg (by rw [hse]; simp),
      if_pos (show ([] : List Cue).isEmpty = true from rfl)] at ha
    rw [fallbackAlignment] at ha
    simp only [List.mem_map] at ha
    obtain ⟨ch, -, rfl⟩ := ha
    exact ⟨rfl, rfl⟩

/-- C4 witness: one source chapter, one matching cue, unit durations,
with the zero function standing in for the penalty. -/
theorem c4_aligner_witness :
    ((∀ x : ℚ, 0 ≤ (fun _ : ℚ => (0 : ℚ)) x) ∧
      ([(⟨0, "A"⟩ : SourceChapter)] ≠ []) ∧ (0 : ℚ) < 1 ∧
      ([(⟨0, 3⟩ : Cue)] ≠ [])) ∧
    ∀ i, i < [(⟨0, "A"⟩ : SourceChapter)].length →
      (((align (fun _ => 0) (fun _ => 1) [⟨0, "A"⟩] [⟨0, 3⟩] 1 1).1.getD i
          default).is_guess = false →
        |((align (fun _ => 0) (fun _ => 1) [⟨0, "A"⟩] [⟨0, 3⟩] 1 1).1.getD i
            default).timestamp -
          (([(⟨0, "A"⟩ : SourceChapter)].getD i default).time *
              (align (fun _ => 0) (fun _ => 1) [⟨0, "A"⟩] [⟨0, 3⟩] 1 1).2.1 +
            (align (fun _ => 0) (fun _ => 1) [⟨0, "A"⟩] [⟨0, 3⟩] 1 1).2.2)| ≤ maxDrift) ∧
      (((align (fun _ => 0) (fun _ => 1) [⟨0, "A"⟩] [⟨0, 3⟩] 1 1).1.getD i
          default).is_guess = true →
        ((align (fun _ => 0) (fun _ => 1) [⟨0, "A"⟩] [⟨0, 3⟩] 1 1).1.getD i
          default).confidence = 3/10) :=
  ⟨⟨fun _ => le_refl 0, by simp, by norm_num, by simp⟩,
    (c4_aligner (fun _ => 0) (fun _ => 1) (fun _ => le_refl 0)
      [⟨0, "A"⟩] [⟨0, 3⟩] 1 1 (by simp) (by norm_num) (by norm_num)).1 (by simp)⟩

end Achew

